import Mathlib

/-!
Verification of the httpx request-executor core.

This file gives a shallow embedding, in Lean 4, of the parts of the
terraform-provider-httpx source that the specification talks about:
the response model and redaction pass (internal/utils), the request
builder (internal/provider/request_builder.go), the retry/backoff
engine (internal/provider/retry.go), the conditional-retry evaluator,
the expectation validator, the destroy-time template interpolator
(internal/provider/interpolation.go), and the resource-id hash.

Go machine integers are modelled as `Int` with explicit wrapping at 64
bits where overflow matters; Go strings are Lean `String`s processed
as `List Char` (the source only manipulates them bytewise on ASCII
data in the fragments modelled here); Go maps are association lists;
fallible Go functions return `Option` or `Except`.  Behaviour of the
Go standard library that the source merely calls through to (JSON
parsing, URL parsing, HTTP-date parsing, the float formatter used by
fmt) is passed in as an explicit environment so that the repository's
own logic is embedded exactly while the library behaviour stays a
parameter.
-/

/-! ## Basic string helpers shared by several components -/

/-- ASCII lower-casing of one character, as `strings.ToLower` acts on
the ASCII subset (all header names and redaction patterns in scope are
ASCII). -/
def goLowerChar (c : Char) : Char :=
  if 65 ≤ c.toNat ∧ c.toNat ≤ 90 then Char.ofNat (c.toNat + 32) else c

/-- ASCII upper-casing of one character (`unicode.ToUpper` on the
ASCII subset, as MIME canonicalisation uses it). -/
def goUpperChar (c : Char) : Char :=
  if 97 ≤ c.toNat ∧ c.toNat ≤ 122 then Char.ofNat (c.toNat - 32) else c

/-- `strings.ToLower` on an ASCII string, charwise. -/
def goToLower (s : List Char) : List Char := s.map goLowerChar

/-- `strings.EqualFold` restricted to ASCII: case-insensitive equality. -/
def goEqualFold (a b : String) : Bool := goToLower a.data = goToLower b.data

/-- `strings.Contains`: `sub` occurs as a contiguous substring of `hay`. -/
def goSubstr (hay sub : List Char) : Bool :=
  match hay with
  | [] => sub.isEmpty
  | _ :: t => sub.isPrefixOf hay || goSubstr t sub

/-- `strings.ReplaceAll` with a non-empty pattern: scan left to right,
replace each non-overlapping occurrence of `p` by `r`.  Structural
recursion on a fuel argument (the wrapper passes the input length,
which always suffices) keeps the definition kernel-reducible. -/
def goReplaceAllNEF (p r : List Char) : Nat → List Char → List Char
  | 0, s => s
  | _ + 1, [] => []
  | fuel + 1, c :: t =>
    if p.isPrefixOf (c :: t) ∧ p ≠ [] then
      r ++ goReplaceAllNEF p r fuel ((c :: t).drop p.length)
    else
      c :: goReplaceAllNEF p r fuel t

/-- `strings.ReplaceAll` with a non-empty pattern. -/
def goReplaceAllNE (p r s : List Char) : List Char :=
  goReplaceAllNEF p r s.length s

/-- `strings.ReplaceAll` with the empty pattern inserts the replacement
before every character and at the end (Go semantics). -/
def goReplaceAllEmpty (r : List Char) : List Char → List Char
  | [] => r
  | c :: t => r ++ c :: goReplaceAllEmpty r t

/-- `strings.ReplaceAll s p r`. -/
def goReplaceAll (s p r : String) : String :=
  if p.data = [] then ⟨goReplaceAllEmpty r.data s.data⟩
  else ⟨goReplaceAllNE p.data r.data s.data⟩

/-- The truncation sentinel appended by `utils.TruncateString`. -/
def truncSentinel : String := "... [TRUNCATED]"

/-- `utils.TruncateString`: truncates `s` to `maxLen` and appends the
sentinel, but only when `s` is strictly longer than `maxLen`. -/
def truncateString (s : String) (maxLen : Nat) : String :=
  if s.data.length ≤ maxLen then s
  else ⟨s.data.take maxLen ++ truncSentinel.data⟩

/-- `utils.RedactError`: for each pattern in the redact list, when the
lower-cased message contains the lower-cased pattern, every exact
occurrence of the pattern is replaced by `[REDACTED]`. -/
def redactError (errMsg : String) (redactList : List String) : String :=
  redactList.foldl
    (fun result pattern =>
      if goSubstr (goToLower result.data) (goToLower pattern.data) then
        goReplaceAll result pattern "[REDACTED]"
      else result)
    errMsg

/-! ## Response model and single-attempt execution -/

/-- `provider.ResponseResult`: the typed result of one HTTP exchange. -/
structure ResponseResult where
  statusCode : Int
  headers : List (String × String)
  body : String
  attemptCount : Int
  error : String
deriving DecidableEq, Repr

/-- The slice of `provider.ProviderConfig` that the executor and the
redaction pass read. -/
structure ProviderCfg where
  redactHeaders : List String
  maxResponseBodyBytes : Nat
deriving DecidableEq, Repr

/-- What the wire (Go `http.Client`) produces for one attempt: a
transport error, a client-construction failure, or a raw response
(status, headers with their ordered value lists, body). -/
inductive WireOutcome where
  | clientErr (msg : String)
  | err (msg : String)
  | resp (status : Int) (headers : List (String × List String)) (body : String)
deriving DecidableEq, Repr

/-- Go errors that `ExecuteRequest` / `ExecuteRequestWithRetry` can
return, kept structured instead of formatted. -/
inductive GoErr where
  | clientFailed (msg : String)
  | requestFailed (msg : String)
  | pollingExhausted (attempts : Int) (unsat : List String)
  | retryExhausted (attempts : Int) (lastStatus : Int)
  | exhaustedWrap (attempts : Int) (inner : GoErr)
  | exhaustedBare (attempts : Int)
deriving DecidableEq, Repr

/-- The message text of a structured error, as `err.Error()` renders it
(used only where the source stores the message into a result field). -/
def GoErr.msg : GoErr → String
  | .clientFailed m => "failed to create HTTP client: " ++ m
  | .requestFailed m => "request failed: " ++ m
  | .pollingExhausted _ _ => "exhausted retry attempts, conditions not met"
  | .retryExhausted _ _ => "exhausted retry attempts"
  | .exhaustedWrap _ e => e.msg
  | .exhaustedBare _ => "exhausted retry attempts"

/-- Outcome of one `ExecuteRequest` call: Go returns a result pointer
and an error; on failure the result may be nil (`none`). -/
inductive ExecOutcome where
  | failed (result : Option ResponseResult) (e : GoErr)
  | ok (r : ResponseResult)
deriving DecidableEq, Repr

/-- Join a multi-valued header with `", "` as `ExecuteRequest` does. -/
def joinHeaderValues (vs : List String) : String :=
  String.intercalate ", " vs

/-- `provider.ExecuteRequest` (part_009): run one attempt.  On a
transport error the result carries status 0, attempt count 1 and the
redacted message.  On success the body is read through
`io.LimitReader(maxResponseBodyBytes)`, the no-longer-reachable
truncation branch is applied verbatim, and multi-valued headers are
joined with `", "`. -/
def executeRequest (cfg : ProviderCfg) (wire : WireOutcome) : ExecOutcome :=
  match wire with
  | .clientErr msg => .failed none (.clientFailed msg)
  | .err msg =>
    .failed (some ⟨0, [], "", 1, redactError msg cfg.redactHeaders⟩)
      (.requestFailed msg)
  | .resp status hdrs body =>
    let bodyRead : String := ⟨body.data.take cfg.maxResponseBodyBytes⟩
    let bodyStr : String :=
      if cfg.maxResponseBodyBytes ≤ bodyRead.data.length then
        truncateString bodyRead cfg.maxResponseBodyBytes
      else bodyRead
    let headers := hdrs.map (fun kv => (kv.1, joinHeaderValues kv.2))
    .ok ⟨status, headers, bodyStr, 1, ""⟩

/-! ## Conditional-retry evaluator (retry_until) -/

/-- The values `encoding/json.Unmarshal` produces into `interface\x7b\x7d`:
null, bool, float64, string, `[]interface\x7b\x7d`, `map[string]interface\x7b\x7d`.
Numbers are carried as exact rationals. -/
inductive JsonVal where
  | null
  | bool (b : Bool)
  | num (q : ℚ)
  | str (s : String)
  | arr (xs : List JsonVal)
  | obj (fields : List (String × JsonVal))

/-- Behaviour of the Go standard library that the repository calls but
does not implement: the JSON text parser, the float renderer used by
`fmt.Sprintf` with the v verb, and `regexp.MatchString` (`none` models
a compile error of the pattern).  The repository logic is embedded
concretely against this environment. -/
structure GoLib where
  jsonParse : String → Option JsonVal
  fmtFloat : ℚ → String
  regexMatch : (pattern : String) → (s : String) → Option Bool
  jsonMarshal : JsonVal → String
  urlParse : String → Option (String × List (String × String))
  readFile : String → Option String

mutual

/-- `fmt.Sprintf` with the v verb on a decoded JSON value, with float
rendering delegated to the environment. -/
def goFmtV (env : GoLib) : JsonVal → String
  | .null => "<nil>"
  | .bool b => if b then "true" else "false"
  | .num q => env.fmtFloat q
  | .str s => s
  | .arr xs => "[" ++ String.intercalate " " (goFmtVList env xs) ++ "]"
  | .obj fs => "map[" ++ String.intercalate " " (goFmtVFields env fs) ++ "]"

/-- `fmt` rendering of the elements of a decoded JSON array. -/
def goFmtVList (env : GoLib) : List JsonVal → List String
  | [] => []
  | x :: xs => goFmtV env x :: goFmtVList env xs

/-- `fmt` rendering of the fields of a decoded JSON object. -/
def goFmtVFields (env : GoLib) : List (String × JsonVal) → List String
  | [] => []
  | kv :: t => (kv.1 ++ ":" ++ goFmtV env kv.2) :: goFmtVFields env t

end

/-- Exact-key lookup in a Go map modelled as an association list. -/
def goMapGet (m : List (String × String)) (k : String) : Option String :=
  (m.find? (fun kv => kv.1 = k)).map (·.2)

/-- One path segment of `evaluateJsonPath`: either `key`, `key[idx]`, or
`[idx]`.  Mirrors the source's split on `[`. -/
def splitSegment (part : String) : Option (String × String) :=
  match part.data.findIdx? (· = '[') with
  | none => none
  | some i =>
    some (⟨part.data.take i⟩, ⟨(part.data.drop (i + 1)).dropLast⟩)

/-- `fmt.Sscanf` of an array index with the d verb: an optional sign
followed by at least one digit; trailing garbage is ignored by Sscanf
only after a successful scan of the leading integer. -/
def scanIndex (s : String) : Option Int :=
  let chars := s.data
  let (sign, rest) :=
    match chars with
    | '-' :: t => ((-1 : Int), t)
    | '+' :: t => ((1 : Int), t)
    | _ => ((1 : Int), chars)
  let digits := rest.takeWhile Char.isDigit
  if digits = [] then none
  else some (sign * (digits.foldl (fun a c => a * 10 + (c.toNat - '0'.toNat)) 0 : Nat))

/-- `provider.evaluateJsonPath` (part_006): walk a dot-separated path
with optional bracket indices over a decoded JSON value. -/
def evaluateJsonPath (data : JsonVal) (path : String) : Except String JsonVal :=
  if path = "" then .ok data
  else
    let parts := (path.split (· = '.')).map id
    parts.foldlM
      (fun current part =>
        match splitSegment part with
        | some (key, idxStr) =>
          let afterKey : Except String JsonVal :=
            if key ≠ "" then
              match current with
              | .obj m =>
                match goMapGet' m key with
                | some v => .ok v
                | none => .error ("key not found: " ++ key)
              | _ => .error "expected object"
            else .ok current
          match afterKey with
          | .error e => .error e
          | .ok cur2 =>
            match cur2 with
            | .arr xs =>
              match scanIndex idxStr with
              | none => .error ("invalid array index: " ++ idxStr)
              | some i =>
                if h : 0 ≤ i ∧ i.toNat < xs.length then
                  .ok (xs.get ⟨i.toNat, h.2⟩)
                else .error "array index out of bounds"
            | _ => .error "expected array"
        | none =>
          match current with
          | .obj m =>
            match goMapGet' m part with
            | some v => .ok v
            | none => .error ("key not found: " ++ part)
          | _ => .error "expected object")
      data
where
  /-- exact-key lookup among decoded JSON object fields -/
  goMapGet' (m : List (String × JsonVal)) (k : String) : Option JsonVal :=
    (m.find? (fun kv => kv.1 = k)).map (·.2)

/-- `provider.checkJsonPathConditions` (part_006): all `(path, expected)`
pairs must hold; a non-JSON or empty body fails the whole check. -/
def checkJsonPathConditions (env : GoLib) (body : String)
    (conditions : List (String × String)) : Bool :=
  if body = "" then false
  else
    match env.jsonParse body with
    | none => false
    | some jsonData =>
      conditions.all (fun pc =>
        match evaluateJsonPath jsonData pc.1 with
        | .error _ => false
        | .ok actual =>
          match env.jsonParse pc.2 with
          | some expectedParsed => goFmtV env expectedParsed = goFmtV env actual
          | none => goFmtV env actual = pc.2)

/-- `provider.checkHeaderConditions` (part_006): each expected header
must be matched by some response header with a case-insensitively equal
name and an exactly equal value. -/
def checkHeaderConditions (headers : List (String × String))
    (conditions : List (String × String)) : Bool :=
  conditions.all (fun ce =>
    headers.any (fun kv => goEqualFold kv.1 ce.1 ∧ kv.2 = ce.2))

/-- `provider.RetryUntilConfig`. -/
structure RetryUntilConfig where
  statusCodes : List Int
  jsonPathEquals : List (String × String)
  headerEquals : List (String × String)
  bodyRegex : String
deriving DecidableEq, Repr

/-- `RetryUntilConfig.EvaluateRetryUntil` (part_006): returns whether
all sub-conditions hold together with the unsatisfied reasons; a nil
receiver is always satisfied. -/
def evaluateRetryUntil (env : GoLib) (ruc : Option RetryUntilConfig)
    (result : ResponseResult) : Bool × List String :=
  match ruc with
  | none => (true, [])
  | some ru =>
    let u1 : List String :=
      if ru.statusCodes.length > 0 ∧ ¬ ru.statusCodes.contains result.statusCode then
        ["status code not in required codes"]
      else []
    let u2 : List String :=
      if ru.jsonPathEquals.length > 0 ∧
          ¬ checkJsonPathConditions env result.body ru.jsonPathEquals then
        ["JSON path conditions not satisfied"]
      else []
    let u3 : List String :=
      if ru.headerEquals.length > 0 ∧
          ¬ checkHeaderConditions result.headers ru.headerEquals then
        ["header conditions not satisfied"]
      else []
    let u4 : List String :=
      if ru.bodyRegex ≠ "" then
        match env.regexMatch ru.bodyRegex result.body with
        | none => ["invalid regex pattern"]
        | some true => []
        | some false => ["body does not match regex: " ++ ru.bodyRegex]
      else []
    let unsat := u1 ++ u2 ++ u3 ++ u4
    (unsat.length = 0, unsat)

/-! ## Retry/backoff engine -/

/-- `provider.RetryConfig`. -/
structure RetryConfig where
  attempts : Int
  minDelayMs : Int
  maxDelayMs : Int
  backoff : String
  jitter : Bool
  retryOnStatusCodes : List Int
  respectRetryAfter : Bool
deriving DecidableEq, Repr

/-- `RetryConfig.ShouldRetry`: always retry on a transport error,
otherwise retry when the status code is configured. -/
def shouldRetry (rc : RetryConfig) (isErr : Bool) (statusCode : Int) : Bool :=
  isErr || rc.retryOnStatusCodes.contains statusCode

/-- The default retry policy installed when `retry_until` is set but no
retry block is given (retry.go, lines 130-141). -/
def defaultPollRetryConfig : RetryConfig :=
  ⟨60, 1000, 5000, "exponential", true, [], true⟩

/-- The body of the attempt loop of `ExecuteRequestWithRetry`
(retry.go, lines 152-276).  `fuel` counts the remaining loop
iterations; the entry point passes `attemptsI.toNat` so that fuel 0
coincides with the loop condition `attempt ≤ attempts` failing.
Sleeping and context cancellation are not modelled (the context is
never done), as no claim depends on elapsed time; the `retryAfter`
accumulator is still threaded as in the source. -/
def retryLoop (cfg : ProviderCfg) (env : GoLib)
    (transport : Int → WireOutcome) (rc : RetryConfig)
    (ru : Option RetryUntilConfig) (attemptsI : Int) :
    Nat → Int → Option GoErr → Option ResponseResult → String →
    Option ResponseResult × Option GoErr
  | 0, _, lastErr, lastResult, _ =>
    -- exhausted all attempts (retry.go, lines 258-276)
    match lastResult with
    | some lr =>
      let lr2 := { lr with attemptCount := attemptsI }
      match ru with
      | some _ =>
        (some lr2, some (.pollingExhausted attemptsI (evaluateRetryUntil env ru lr2).2))
      | none => (some lr2, some (.retryExhausted attemptsI lr2.statusCode))
    | none =>
      match lastErr with
      | some e =>
        (some ⟨0, [], "", attemptsI, e.msg⟩, some (.exhaustedWrap attemptsI e))
      | none => (none, some (.exhaustedBare attemptsI))
  | fuel + 1, attempt, lastErr, _lastResult, retryAfter =>
    match executeRequest cfg (transport attempt) with
    | .failed result err =>
      -- transport error: ShouldRetry is true, so retry unless exhausted
      if attempt ≥ attemptsI then (result, some err)
      else retryLoop cfg env transport rc ru attemptsI fuel (attempt + 1)
        (some err) result retryAfter
    | .ok result =>
      match ru with
      | some _ =>
        let sat := (evaluateRetryUntil env ru result).1
        if ¬ sat ∧ attempt < attemptsI then
          let retryAfter2 :=
            if rc.respectRetryAfter then
              match goMapGet result.headers "Retry-After" with
              | some v => v
              | none => retryAfter
            else retryAfter
          retryLoop cfg env transport rc ru attemptsI fuel (attempt + 1)
            lastErr (some result) retryAfter2
        else
          -- satisfied, or unsatisfied on the final attempt: both return
          -- the result as success (the status-code check is skipped when
          -- retry_until is present)
          (some { result with attemptCount := attempt }, none)
      | none =>
        if shouldRetry rc false result.statusCode ∧ attempt < attemptsI then
          let retryAfter2 :=
            if rc.respectRetryAfter then
              match goMapGet result.headers "Retry-After" with
              | some v => v
              | none => retryAfter
            else retryAfter
          retryLoop cfg env transport rc ru attemptsI fuel (attempt + 1)
            lastErr (some result) retryAfter2
        else (some { result with attemptCount := attempt }, none)

/-- `provider.ExecuteRequestWithRetry` (retry.go): with no retry and no
poll configuration, execute once; with a poll configuration but no
retry policy, install the default polling policy; then run the attempt
loop. -/
def executeRequestWithRetry (cfg : ProviderCfg) (env : GoLib)
    (transport : Int → WireOutcome) (rc0 : Option RetryConfig)
    (ru : Option RetryUntilConfig) : Option ResponseResult × Option GoErr :=
  match rc0, ru with
  | none, none =>
    match executeRequest cfg (transport 1) with
    | .failed result err => (result, some err)
    | .ok r => (some r, none)
  | _, _ =>
    let rc := match rc0 with
      | some rc => rc
      | none => defaultPollRetryConfig
    let attemptsI : Int := if rc.attempts ≤ 0 then 1 else rc.attempts
    retryLoop cfg env transport rc ru attemptsI attemptsI.toNat 1 none none ""

/-! ## Expectation validator -/

/-- `provider.ExpectModel` (models.go): Terraform nulls are `none`. -/
structure ExpectModel where
  statusCodes : Option (List Int)
  jsonPathExists : Option (List String)
  jsonPathEquals : Option (List (String × String))
  headerPresent : Option (List String)
deriving DecidableEq, Repr

/-- Go `fmt` rendering of an `int64`. -/
def goFmtInt (i : Int) : String := toString i

/-- Go `fmt` rendering of an `[]int64` with the v verb. -/
def goFmtIntList (xs : List Int) : String :=
  "[" ++ String.intercalate " " (xs.map goFmtInt) ++ "]"

/-- `provider.ValidateExpectations` (part_009): accumulates status-code
and header-presence failures into one error; the `json_path_exists`
and `json_path_equals` fields of the expect block are read from the
model but never checked (the source marks them TODO). -/
def validateExpectations (result : ResponseResult) (expect : Option ExpectModel) :
    Option String :=
  match expect with
  | none => none
  | some e =>
    let statusErrs : List String :=
      match e.statusCodes with
      | none => []
      | some expectedCodes =>
        if expectedCodes.contains result.statusCode then []
        else
          ["status code " ++ goFmtInt result.statusCode ++
            " not in expected codes " ++ goFmtIntList expectedCodes]
    let headerErrs : List String :=
      match e.headerPresent with
      | none => []
      | some requiredHeaders =>
        requiredHeaders.filterMap (fun headerName =>
          if result.headers.any (fun kv => goEqualFold kv.1 headerName) then none
          else some ("required header " ++ headerName ++ " not present"))
    let errors := statusErrs ++ headerErrs
    if errors.length > 0 then
      some ("expectation validation failed: " ++ String.intercalate "; " errors)
    else none

/-! ## Destroy-time template interpolator -/

/-- `provider.InterpolationContext`. -/
structure InterpolationContext where
  id : String
  outputs : List (String × String)
  responseBody : String
  statusCode : Int
deriving DecidableEq, Repr

/-- A character the interpolation key class `[a-zA-Z0-9_]` accepts. -/
def isWordChar (c : Char) : Bool :=
  ('a' ≤ c ∧ c ≤ 'z') ∨ ('A' ≤ c ∧ c ≤ 'Z') ∨ ('0' ≤ c ∧ c ≤ '9') ∨ c = '_'

/-- The fixed prefix of the outputs template, `$\x7bself.outputs.`. -/
def tmplPre : List Char := "$\x7bself.outputs.".data

/-- The full outputs template for a key: `$\x7bself.outputs.KEY\x7d`. -/
def tmplFor (key : List Char) : List Char := tmplPre ++ key ++ ['\x7d']

/-- Try to match the outputs template at the head of `s`; on success
return the key and the remainder after the closing brace.  This is the
leftmost step of the RE2 pattern used in `InterpolateString`. -/
def matchTemplateAt (s : List Char) : Option (List Char × List Char) :=
  if tmplPre.isPrefixOf s then
    match (s.drop tmplPre.length).dropWhile isWordChar with
    | c :: rest =>
      if (s.drop tmplPre.length).takeWhile isWordChar ≠ [] ∧ c = '\x7d' then
        some ((s.drop tmplPre.length).takeWhile isWordChar, rest)
      else none
    | [] => none
  else none

/-- `matchTemplateAt` succeeds exactly on a full template: the input
decomposes as prefix, key, closing brace, rest. -/
theorem matchTemplateAt_decomp {s key rest} (h : matchTemplateAt s = some (key, rest)) :
    s = tmplPre ++ key ++ '\x7d' :: rest ∧ key ≠ [] ∧ ∀ c ∈ key, isWordChar c := by
  unfold matchTemplateAt at h
  split at h
  case isTrue hp =>
    split at h
    case _ c rest0 hd =>
      split at h
      case isTrue hc =>
        obtain ⟨hk, hr⟩ := Prod.mk.injEq .. ▸ Option.some.injEq .. ▸ h
        obtain ⟨u, hu⟩ := List.isPrefixOf_iff_prefix.mp hp
        have hdrop : s.drop tmplPre.length = u := by
          rw [← hu, List.drop_left]
        refine ⟨?_, ?_, ?_⟩
        · rw [← hu, ← hk, ← hr, ← hc.2]
          have hsplit : u = u.takeWhile isWordChar ++ u.dropWhile isWordChar :=
            (List.takeWhile_append_dropWhile isWordChar u).symm
          rw [hdrop] at hd
          conv_lhs => rw [hsplit]
          rw [hdrop, hd]
          simp
        · rw [← hk]; exact hc.1
        · intro x hx
          rw [← hk] at hx
          exact List.mem_takeWhile_imp hx
      case isFalse => exact absurd h (by simp)
    case _ => exact absurd h (by simp)
  case isFalse => exact absurd h (by simp)

/-- The scanner at the heart of `InterpolateString`
(interpolation.go):  walk the text left to right, replace each
`$\x7bself.outputs.KEY\x7d` whose key is present, keep the text and record
the missing key otherwise (the last missing key wins, as the Go
closure overwrites `lastErr`).  Returns the rewritten text and the
recorded error. -/
def scanOutputsF (outputs : List (String × String)) :
    Nat → List Char → List Char × Option (List Char)
  | 0, s => (s, none)
  | _ + 1, [] => ([], none)
  | fuel + 1, c :: t =>
    match matchTemplateAt (c :: t) with
    | some (key, rest) =>
      let (res, e) := scanOutputsF outputs fuel rest
      match goMapGet outputs ⟨key⟩ with
      | some v => (v.data ++ res, e)
      | none =>
        (tmplFor key ++ res, match e with | some k2 => some k2 | none => some key)
    | none =>
      let (res, e) := scanOutputsF outputs fuel t
      (c :: res, e)

/-- The scanner with its fuel set to the input length, which the
recursion never exhausts. -/
def scanOutputs (outputs : List (String × String)) (s : List Char) :
    List Char × Option (List Char) :=
  scanOutputsF outputs s.length s

/-- `provider.InterpolateString`: empty text is returned unchanged;
otherwise outputs templates are expanded (a missing key aborts with
that key), then `$\x7bself.id\x7d` is substituted literally. -/
def interpolateString (text : String) (ictx : InterpolationContext) :
    Except String String :=
  if text = "" then .ok text
  else
    let (res, e) := scanOutputs ictx.outputs text.data
    match e with
    | some key => .error ⟨key⟩
    | none => .ok (goReplaceAll ⟨res⟩ "$\x7bself.id\x7d" ictx.id)

/-- The template-bearing slice of the `on_destroy` request config
(`provider.RequestConfigModel`): Terraform nulls are `none`; header
blocks are (name, value) pairs. -/
structure DestroyConfig where
  url : Option String
  method : String
  headers : Option (List (String × String))
  headerBlocks : List (String × String)
  query : Option (List (String × String))
  body : Option String
  bodyJson : Option String
deriving DecidableEq, Repr

/-- `provider.InterpolateMap`: expand every value of a map; the first
failure aborts.  The error value is the missing output key recorded by
`InterpolateString`. -/
def interpPairs (ictx : InterpolationContext) :
    List (String × String) → Except String (List (String × String))
  | [] => .ok []
  | kv :: t =>
    match interpolateString kv.2 ictx with
    | .error e => .error e
    | .ok v =>
      match interpPairs ictx t with
      | .error e => .error e
      | .ok rest => .ok ((kv.1, v) :: rest)

/-- Expansion of an optional map field. -/
def interpOptPairs (ictx : InterpolationContext) :
    Option (List (String × String)) → Except String (Option (List (String × String)))
  | none => .ok none
  | some m => (interpPairs ictx m).map some

/-- Expansion of an optional string field. -/
def interpOptStr (ictx : InterpolationContext) :
    Option String → Except String (Option String)
  | none => .ok none
  | some s => (interpolateString s ictx).map some

/-- The template-expansion phase of `HttpxRequestResource.Delete`
(part_005, lines 1084-1160): URL, headers map, header blocks, query,
body and body_json are expanded in that order; the first missing
output key aborts the whole expansion. -/
def expandDestroy (ictx : InterpolationContext) (cfg : DestroyConfig) :
    Except String DestroyConfig :=
  match interpOptStr ictx cfg.url with
  | .error e => .error e
  | .ok url2 =>
    match interpOptPairs ictx cfg.headers with
    | .error e => .error e
    | .ok headers2 =>
      match interpPairs ictx cfg.headerBlocks with
      | .error e => .error e
      | .ok blocks2 =>
        match interpOptPairs ictx cfg.query with
        | .error e => .error e
        | .ok query2 =>
          match interpOptStr ictx cfg.body with
          | .error e => .error e
          | .ok body2 =>
            match interpOptStr ictx cfg.bodyJson with
            | .error e => .error e
            | .ok bodyJson2 =>
              .ok ⟨url2, cfg.method, headers2, blocks2, query2, body2, bodyJson2⟩

/-- What the Delete handler did, as far as the destroy claims are
concerned: no-op removal (no `on_destroy` block), an abort during
template expansion carrying the missing key, or proceeding to request
building and transport with the expanded config. -/
inductive DeleteOutcome where
  | noOp
  | interpFailed (key : String)
  | proceeded (cfg : DestroyConfig)
deriving DecidableEq, Repr

/-- `HttpxRequestResource.Delete` up to the hand-off to `BuildRequest`
and `ExecuteRequestWithRetry` (part_005): interpolation failures
return error diagnostics before any request is built or sent. -/
def deleteRun (onDestroy : Option DestroyConfig) (ictx : InterpolationContext) :
    DeleteOutcome :=
  match onDestroy with
  | none => .noOp
  | some cfg =>
    match expandDestroy ictx cfg with
    | .error k => .interpFailed k
    | .ok expanded => .proceeded expanded

/-- Transport I/O for the destroy request happens only after the
expansion phase succeeds. -/
def deleteReachesTransport : DeleteOutcome → Bool
  | .proceeded _ => true
  | _ => false

/-- Modelled from the spec: the hosting plugin framework (not part of
this repository) removes the resource state only when the Delete
handler returns without error diagnostics; on `interpFailed` the
Delete handler returns early with an error diagnostic and the stored
state, so the prior state is retained for a later retry. -/
def deleteStateAfter {α : Type} (prior : α) :
    DeleteOutcome → Option α
  | .noOp => none
  | .interpFailed _ => some prior
  | .proceeded _ => none

/-- The string-typed fields of a destroy config to which interpolation
is applied. -/
def destroyTemplateFields (cfg : DestroyConfig) : List String :=
  cfg.url.toList ++ ((cfg.headers.getD []).map (·.2)) ++
    (cfg.headerBlocks.map (·.2)) ++ ((cfg.query.getD []).map (·.2)) ++
    cfg.body.toList ++ cfg.bodyJson.toList

/-! ## Lemmas about the interpolation scanner -/

theorem takeWhile_wordKey {key post : List Char} (hw : ∀ c ∈ key, isWordChar c) :
    (key ++ '\x7d' :: post).takeWhile isWordChar = key := by
  induction key with
  | nil => simp [List.takeWhile, isWordChar]
  | cons a t ih =>
    have ha : isWordChar a := hw a (by simp)
    simp only [List.cons_append, List.takeWhile]
    rw [ha]
    simp only [cond_true, List.cons.injEq, true_and]
    exact ih (fun c hc => hw c (by simp [hc]))

theorem dropWhile_wordKey {key post : List Char} (hw : ∀ c ∈ key, isWordChar c) :
    (key ++ '\x7d' :: post).dropWhile isWordChar = '\x7d' :: post := by
  induction key with
  | nil => simp [List.dropWhile, isWordChar]
  | cons a t ih =>
    have ha : isWordChar a := hw a (by simp)
    simp only [List.cons_append, List.dropWhile]
    rw [ha]
    exact ih (fun c hc => hw c (by simp [hc]))

/-- `matchTemplateAt` recognises a well-formed template at the head of
the input. -/
theorem matchTemplateAt_tmpl {key post : List Char} (hk : key ≠ [])
    (hw : ∀ c ∈ key, isWordChar c) :
    matchTemplateAt (tmplFor key ++ post) = some (key, post) := by
  have hshape : tmplFor key ++ post = tmplPre ++ (key ++ '\x7d' :: post) := by
    simp [tmplFor, List.append_assoc]
  unfold matchTemplateAt
  rw [hshape]
  have hpre : tmplPre.isPrefixOf (tmplPre ++ (key ++ '\x7d' :: post)) := by
    exact List.isPrefixOf_iff_prefix.mpr ⟨_, rfl⟩
  rw [hpre]
  simp only [if_true, List.drop_left]
  rw [dropWhile_wordKey hw, takeWhile_wordKey hw]
  simp [hk]

/-- Any key the scanner records as missing is indeed absent from the
outputs map. -/
theorem scanOutputsF_err_missing (outputs : List (String × String)) :
    ∀ fuel s k, (scanOutputsF outputs fuel s).2 = some k →
      goMapGet outputs ⟨k⟩ = none := by
  intro fuel
  induction fuel with
  | zero => intro s k h; simp [scanOutputsF] at h
  | succ fuel ih =>
    intro s k h
    match s with
    | [] => simp [scanOutputsF] at h
    | c :: t =>
      rw [scanOutputsF] at h
      rcases hm : matchTemplateAt (c :: t) with _ | ⟨key, rest⟩
      · rw [hm] at h
        simp only at h
        rcases hsc : scanOutputsF outputs fuel t with ⟨res, e⟩
        rw [hsc] at h
        simp only at h
        exact ih t k (by rw [hsc]; exact h)
      · rw [hm] at h
        simp only at h
        rcases hsc : scanOutputsF outputs fuel rest with ⟨res, e⟩
        rw [hsc] at h
        rcases hg : goMapGet outputs ⟨key⟩ with _ | v
        · rw [hg] at h
          simp only at h
          rcases e with _ | k2
          · simp only at h
            have hkk : key = k := Option.some_injective _ h
            rw [← hkk]
            exact hg
          · simp only at h
            exact ih rest k (by rw [hsc, h])
        · rw [hg] at h
          simp only at h
          exact ih rest k (by rw [hsc]; exact h)

/-- If the input decomposes around a well-formed outputs template whose
key is absent from the outputs map, the scanner records a missing key.
The core of the argument: a template match found earlier in the text
can never swallow the later template, because the matched region
consists of the fixed prefix (whose only dollar sign is its first
character), word characters, and a closing brace. -/
theorem scanOutputsF_err_of_tmpl (outputs : List (String × String))
    (key : List Char) (hk : key ≠ []) (hw : ∀ c ∈ key, isWordChar c)
    (hmiss : goMapGet outputs ⟨key⟩ = none) :
    ∀ fuel s pre post, s.length ≤ fuel → s = pre ++ tmplFor key ++ post →
      ((scanOutputsF outputs fuel s).2).isSome := by
  intro fuel
  induction fuel with
  | zero =>
    intro s pre post hlen hdec
    exfalso
    have := congrArg List.length hdec
    simp [tmplFor, tmplPre] at this
    omega
  | succ fuel ih =>
    intro s pre post hlen hdec
    rcases s with _ | ⟨c, t⟩
    · exfalso
      have := congrArg List.length hdec
      simp [tmplFor, tmplPre] at this
      omega
    · rw [scanOutputsF]
      rcases hm : matchTemplateAt (c :: t) with _ | ⟨key2, rest⟩
      · -- no template matches here, so the decomposition starts further in
        cases pre with
        | nil =>
          exfalso
          simp only [List.nil_append] at hdec
          rw [hdec, matchTemplateAt_tmpl hk hw] at hm
          exact Option.noConfusion hm
        | cons c0 pre2 =>
          simp only [List.cons_append, List.cons.injEq] at hdec
          rcases hsc : scanOutputsF outputs fuel t with ⟨res, e⟩
          simp only [hsc]
          have ht : t = pre2 ++ tmplFor key ++ post := hdec.2
          have hlt : t.length ≤ fuel := by
            simp only [List.length_cons] at hlen; omega
          have := ih t pre2 post hlt ht
          rw [hsc] at this
          exact this
      · rcases matchTemplateAt_decomp hm with ⟨hshape, hk2, hw2⟩
        rcases hsc : scanOutputsF outputs fuel rest with ⟨res, e⟩
        simp only [hsc]
        rcases hg : goMapGet outputs ⟨key2⟩ with _ | v
        · -- the earlier match itself hits a missing key
          rcases e with _ | k2 <;> simp
        · -- the earlier match resolved; show the template survives in `rest`
          simp only
          -- name the consumed region
          have hcons : c :: t = (tmplPre ++ key2 ++ ['\x7d']) ++ rest := by
            rw [hshape]; simp [List.append_assoc]
          cases pre with
          | nil =>
            exfalso
            simp only [List.nil_append] at hdec
            rw [hdec, matchTemplateAt_tmpl hk hw] at hm
            have hkey : key2 = key := by
              have := Option.some_injective _ hm
              exact (Prod.mk.injEq .. ▸ this).1.symm
            rw [hkey, hmiss] at hg
            exact Option.noConfusion hg
          | cons c0 pre2 =>
            have hconsPre : (tmplPre ++ key2 ++ ['\x7d']) <+: c :: t := ⟨rest, hcons.symm⟩
            have hprePre : (c0 :: pre2) <+: c :: t := ⟨tmplFor key ++ post, by rw [hdec]; simp [List.append_assoc]⟩
            rcases List.prefix_or_prefix_of_prefix hconsPre hprePre with hcp | hpc
            · -- consumed region lies within `pre`
              obtain ⟨pre2b, hpre2b⟩ := hcp
              have hrest : rest = pre2b ++ tmplFor key ++ post := by
                have h1 : (tmplPre ++ key2 ++ ['\x7d']) ++ rest =
                    (tmplPre ++ key2 ++ ['\x7d']) ++ (pre2b ++ tmplFor key ++ post) := by
                  rw [← hcons, hdec, ← hpre2b]
                  simp [List.append_assoc]
                exact List.append_cancel_left h1
              have hlr : rest.length ≤ fuel := by
                have hL := congrArg List.length hcons
                simp [tmplPre] at hL hlen
                omega
              have := ih rest pre2b post hlr hrest
              rw [hsc] at this
              exact this
            · -- `pre` ends inside the consumed region: impossible, since the
              -- template's dollar sign cannot occur there
              obtain ⟨mid, hmid⟩ := hpc
              cases mid with
              | nil =>
                -- the consumed region is exactly `pre`
                have hpre2b : tmplPre ++ key2 ++ ['\x7d'] = (c0 :: pre2) ++ [] := by
                  rw [← hmid]
                have hrest : rest = tmplFor key ++ post := by
                  have h1 : (tmplPre ++ key2 ++ ['\x7d']) ++ rest =
                      (tmplPre ++ key2 ++ ['\x7d']) ++ (tmplFor key ++ post) := by
                    rw [← hcons, hdec]
                    conv_rhs => rw [hpre2b]
                    simp [List.append_assoc]
                  exact List.append_cancel_left h1
                have hlr : rest.length ≤ fuel := by
                  have hL := congrArg List.length hcons
                  simp [tmplPre] at hL hlen
                  omega
                have := ih rest [] post hlr (by rw [hrest]; simp)
                rw [hsc] at this
                exact this
              | cons m0 mid2 =>
                exfalso
                -- the head of `mid` is the dollar sign that starts our template
                have hsplit : tmplFor key ++ post = (m0 :: mid2) ++ rest := by
                  have h1 : (c0 :: pre2) ++ (tmplFor key ++ post) =
                      (c0 :: pre2) ++ ((m0 :: mid2) ++ rest) := by
                    rw [← List.append_assoc, ← hdec, hcons, ← hmid]
                    simp [List.append_assoc]
                  exact List.append_cancel_left h1
                have hm0 : m0 = '$' := by
                  have h1 := congrArg (fun l => l.head?) hsplit
                  simp [tmplFor, tmplPre] at h1
                  exact h1.symm
                -- locate that dollar sign inside the consumed region
                have hmem0 : m0 ∈ (tmplPre ++ key2 ++ ['\x7d']).drop (c0 :: pre2).length := by
                  rw [← hmid, List.drop_left]
                  simp
                have hmem1 : m0 ∈ (tmplPre ++ key2 ++ ['\x7d']).drop 1 := by
                  have h2 : (tmplPre ++ key2 ++ ['\x7d']).drop ((c0 :: pre2).length) =
                      ((tmplPre ++ key2 ++ ['\x7d']).drop 1).drop pre2.length := by
                    rw [List.drop_drop]
                    congr 1
                    simp [Nat.add_comm]
                  rw [h2] at hmem0
                  exact List.mem_of_mem_drop hmem0
                have hshape1 : (tmplPre ++ key2 ++ ['\x7d']).drop 1 =
                    tmplPre.drop 1 ++ key2 ++ ['\x7d'] := by
                  simp [tmplPre]
                rw [hshape1, hm0] at hmem1
                simp only [List.mem_append, List.mem_singleton] at hmem1
                rcases hmem1 with (h1 | h1) | h1
                · revert h1; simp [tmplPre]
                · have := hw2 '$' h1
                  revert this; simp [isWordChar]
                · revert h1; simp

/-- A string containing a well-formed outputs template with a missing
key makes `interpolateString` fail, and the reported key is itself
missing from the outputs. -/
theorem interpolateString_error_of_tmpl (ictx : InterpolationContext)
    (pre key post : List Char) (hk : key ≠ []) (hw : ∀ c ∈ key, isWordChar c)
    (hmiss : goMapGet ictx.outputs ⟨key⟩ = none) :
    ∃ k, interpolateString ⟨pre ++ tmplFor key ++ post⟩ ictx = .error k ∧
      goMapGet ictx.outputs k = none := by
  have hne : (⟨pre ++ tmplFor key ++ post⟩ : String) ≠ "" := by
    intro h
    have h2 : pre ++ tmplFor key ++ post = [] := congrArg String.data h
    have h3 := congrArg List.length h2
    simp [tmplFor, tmplPre] at h3
  unfold interpolateString
  rw [if_neg hne]
  rcases hsc : scanOutputs ictx.outputs (⟨pre ++ tmplFor key ++ post⟩ : String).data
    with ⟨res, e⟩
  have hsome : e.isSome := by
    have h1 := scanOutputsF_err_of_tmpl ictx.outputs key hk hw hmiss
      (pre ++ tmplFor key ++ post).length (pre ++ tmplFor key ++ post) pre post
      le_rfl rfl
    rw [scanOutputs] at hsc
    rw [hsc] at h1
    exact h1
  rcases e with _ | kk
  · simp at hsome
  · refine ⟨⟨kk⟩, rfl, ?_⟩
    rw [scanOutputs] at hsc
    exact scanOutputsF_err_missing ictx.outputs _ _ kk (by rw [hsc])

/-- Any error reported by `interpolateString` names a key absent from
the outputs map. -/
theorem interpolateString_err_missing {s : String} {ictx : InterpolationContext}
    {k : String} (h : interpolateString s ictx = .error k) :
    goMapGet ictx.outputs k = none := by
  unfold interpolateString at h
  by_cases hs : s = ""
  · rw [if_pos hs] at h
    exact absurd h (by simp)
  · rw [if_neg hs] at h
    rcases hsc : scanOutputs ictx.outputs s.data with ⟨res, e⟩
    rw [hsc] at h
    rcases e with _ | kk
    · simp at h
    · simp only [Except.error.injEq] at h
      rw [← h]
      rw [scanOutputs] at hsc
      exact scanOutputsF_err_missing ictx.outputs _ _ kk (by rw [hsc])

/-- A successful map expansion means every value interpolated
successfully. -/
theorem interpPairs_ok {ictx : InterpolationContext}
    {l l2 : List (String × String)} (h : interpPairs ictx l = .ok l2) :
    ∀ kv ∈ l, ∃ v, interpolateString kv.2 ictx = .ok v := by
  induction l generalizing l2 with
  | nil => simp
  | cons kv t ih =>
    intro kv2 hmem
    rw [interpPairs] at h
    rcases hi : interpolateString kv.2 ictx with e | v
    · rw [hi] at h; exact absurd h (by simp)
    · rw [hi] at h
      rcases ht : interpPairs ictx t with e2 | rest
      · rw [ht] at h; exact absurd h (by simp)
      · rw [List.mem_cons] at hmem
        rcases hmem with rfl | hmem
        · exact ⟨v, hi⟩
        · exact ih ht kv2 hmem

/-- Any error reported by `interpPairs` names a missing output key. -/
theorem interpPairs_err_missing {ictx : InterpolationContext}
    {l : List (String × String)} {k : String}
    (h : interpPairs ictx l = .error k) : goMapGet ictx.outputs k = none := by
  induction l with
  | nil => rw [interpPairs] at h; exact absurd h (by simp)
  | cons kv t ih =>
    rw [interpPairs] at h
    rcases hi : interpolateString kv.2 ictx with e | v
    · rw [hi] at h
      simp only [Except.error.injEq] at h
      rw [← h]
      exact interpolateString_err_missing hi
    · rw [hi] at h
      rcases ht : interpPairs ictx t with e2 | rest
      · rw [ht] at h
        simp only [Except.error.injEq] at h
        subst h
        exact ih ht
      · rw [ht] at h; exact absurd h (by simp)

/-- `interpOptStr` error inversion. -/
theorem interpOptStr_err_missing {ictx : InterpolationContext}
    {o : Option String} {k : String} (h : interpOptStr ictx o = .error k) :
    goMapGet ictx.outputs k = none := by
  rcases o with _ | s
  · rw [interpOptStr] at h; exact absurd h (by simp)
  · rw [interpOptStr] at h
    rcases hi : interpolateString s ictx with e | v
    · rw [hi] at h
      simp only [Except.map, Except.error.injEq] at h
      rw [← h]
      exact interpolateString_err_missing hi
    · rw [hi] at h; exact absurd h (by simp [Except.map])

/-- `interpOptStr` success inversion. -/
theorem interpOptStr_ok {ictx : InterpolationContext}
    {s : String} {o2 : Option String} (h : interpOptStr ictx (some s) = .ok o2) :
    ∃ v, interpolateString s ictx = .ok v := by
  rw [interpOptStr] at h
  rcases hi : interpolateString s ictx with e | v
  · rw [hi] at h; exact absurd h (by simp [Except.map])
  · exact ⟨v, rfl⟩

/-- `interpOptPairs` error inversion. -/
theorem interpOptPairs_err_missing {ictx : InterpolationContext}
    {o : Option (List (String × String))} {k : String}
    (h : interpOptPairs ictx o = .error k) : goMapGet ictx.outputs k = none := by
  rcases o with _ | m
  · rw [interpOptPairs] at h; exact absurd h (by simp)
  · rw [interpOptPairs] at h
    rcases hi : interpPairs ictx m with e | v
    · rw [hi] at h
      simp only [Except.map, Except.error.injEq] at h
      rw [← h]
      exact interpPairs_err_missing hi
    · rw [hi] at h; exact absurd h (by simp [Except.map])

/-- `interpOptPairs` success inversion. -/
theorem interpOptPairs_ok {ictx : InterpolationContext}
    {m : List (String × String)} {o2 : Option (List (String × String))}
    (h : interpOptPairs ictx (some m) = .ok o2) :
    ∀ kv ∈ m, ∃ v, interpolateString kv.2 ictx = .ok v := by
  rw [interpOptPairs] at h
  rcases hi : interpPairs ictx m with e | v
  · rw [hi] at h; exact absurd h (by simp [Except.map])
  · exact interpPairs_ok hi

/-- Any error reported by the destroy expansion phase names a missing
output key. -/
theorem expandDestroy_err_missing {ictx : InterpolationContext}
    {cfg : DestroyConfig} {k : String}
    (h : expandDestroy ictx cfg = .error k) : goMapGet ictx.outputs k = none := by
  unfold expandDestroy at h
  rcases h1 : interpOptStr ictx cfg.url with e | url2
  · rw [h1] at h
    simp only [Except.error.injEq] at h
    subst h
    exact interpOptStr_err_missing h1
  · rw [h1] at h
    rcases h2 : interpOptPairs ictx cfg.headers with e | headers2
    · rw [h2] at h
      simp only [Except.error.injEq] at h
      subst h
      exact interpOptPairs_err_missing h2
    · rw [h2] at h
      rcases h3 : interpPairs ictx cfg.headerBlocks with e | blocks2
      · rw [h3] at h
        simp only [Except.error.injEq] at h
        subst h
        exact interpPairs_err_missing h3
      · rw [h3] at h
        rcases h4 : interpOptPairs ictx cfg.query with e | query2
        · rw [h4] at h
          simp only [Except.error.injEq] at h
          subst h
          exact interpOptPairs_err_missing h4
        · rw [h4] at h
          rcases h5 : interpOptStr ictx cfg.body with e | body2
          · rw [h5] at h
            simp only [Except.error.injEq] at h
            subst h
            exact interpOptStr_err_missing h5
          · rw [h5] at h
            rcases h6 : interpOptStr ictx cfg.bodyJson with e | bodyJson2
            · rw [h6] at h
              simp only [Except.error.injEq] at h
              subst h
              exact interpOptStr_err_missing h6
            · rw [h6] at h; exact absurd h (by simp)

/-- A successful destroy expansion means every template-bearing field
interpolated successfully. -/
theorem expandDestroy_ok_fields {ictx : InterpolationContext}
    {cfg cfg2 : DestroyConfig} (h : expandDestroy ictx cfg = .ok cfg2) :
    ∀ text ∈ destroyTemplateFields cfg, ∃ v, interpolateString text ictx = .ok v := by
  unfold expandDestroy at h
  rcases h1 : interpOptStr ictx cfg.url with e | url2 <;> rw [h1] at h
  · exact absurd h (by simp)
  rcases h2 : interpOptPairs ictx cfg.headers with e | headers2 <;> rw [h2] at h
  · exact absurd h (by simp)
  rcases h3 : interpPairs ictx cfg.headerBlocks with e | blocks2 <;> rw [h3] at h
  · exact absurd h (by simp)
  rcases h4 : interpOptPairs ictx cfg.query with e | query2 <;> rw [h4] at h
  · exact absurd h (by simp)
  rcases h5 : interpOptStr ictx cfg.body with e | body2 <;> rw [h5] at h
  · exact absurd h (by simp)
  rcases h6 : interpOptStr ictx cfg.bodyJson with e | bodyJson2 <;> rw [h6] at h
  · exact absurd h (by simp)
  intro text hmem
  unfold destroyTemplateFields at hmem
  simp only [List.mem_append] at hmem
  rcases hmem with ((((hu | hh) | hb) | hq) | hbody) | hbj
  · rcases hurl : cfg.url with _ | u
    · rw [hurl] at hu; simp at hu
    · rw [hurl] at hu
      simp only [Option.toList_some, List.mem_singleton] at hu
      subst hu
      rw [hurl] at h1
      exact interpOptStr_ok h1
  · rcases hhdr : cfg.headers with _ | m
    · rw [hhdr] at hh; simp at hh
    · rw [hhdr] at hh
      simp only [Option.getD_some, List.mem_map] at hh
      obtain ⟨kv, hkv, rfl⟩ := hh
      rw [hhdr] at h2
      exact interpOptPairs_ok h2 kv hkv
  · simp only [List.mem_map] at hb
    obtain ⟨kv, hkv, rfl⟩ := hb
    exact interpPairs_ok h3 kv hkv
  · rcases hqry : cfg.query with _ | m
    · rw [hqry] at hq; simp at hq
    · rw [hqry] at hq
      simp only [Option.getD_some, List.mem_map] at hq
      obtain ⟨kv, hkv, rfl⟩ := hq
      rw [hqry] at h4
      exact interpOptPairs_ok h4 kv hkv
  · rcases hbd : cfg.body with _ | u
    · rw [hbd] at hbody; simp at hbody
    · rw [hbd] at hbody
      simp only [Option.toList_some, List.mem_singleton] at hbody
      subst hbody
      rw [hbd] at h5
      exact interpOptStr_ok h5
  · rcases hbj2 : cfg.bodyJson with _ | u
    · rw [hbj2] at hbj; simp at hbj
    · rw [hbj2] at hbj
      simp only [Option.toList_some, List.mem_singleton] at hbj
      subst hbj
      rw [hbj2] at h6
      exact interpOptStr_ok h6

/-! ## Shared concrete instances for claim evaluations -/

/-- A standard-library stub used where a claim scenario never reaches
the JSON/regex paths. -/
def stubEnv : GoLib :=
  ⟨fun _ => none, fun _ => "", fun _ _ => some false,
   fun _ => "", fun s => some (s, []), fun _ => none⟩

/-- A provider config with no redaction and the default body cap. -/
def plainCfg : ProviderCfg := ⟨[], 1048576⟩

/-! ## Claims -/

/-- C1.  The spec says a retry loop that finishes all attempts without
terminating early returns `PollingExhausted` (poll condition present)
or `RetryExhausted` (retryable status, no poll condition) and never
returns the final response as a success.  The code does the opposite:
on the final attempt both the unsatisfied-poll branch and the
retryable-status branch fall through to the success return, so the
exhaustion returns at the end of `ExecuteRequestWithRetry` are
unreachable and the final response comes back with a nil error.  Both
scenarios are evaluated here: two attempts, transport always answering
status 503, with (a) `retry_until.status_codes = [200]` and (b)
`retry_on_status_codes = [503]`. -/
theorem claimC1_exhaustion_returns_success :
    executeRequestWithRetry plainCfg stubEnv (fun _ => .resp 503 [] "x")
        (some ⟨2, 100, 1000, "fixed", false, [], false⟩)
        (some ⟨[200], [], [], ""⟩)
      = (some ⟨503, [], "x", 2, ""⟩, none) ∧
    executeRequestWithRetry plainCfg stubEnv (fun _ => .resp 503 [] "x")
        (some ⟨2, 100, 1000, "fixed", false, [503], false⟩) none
      = (some ⟨503, [], "x", 2, ""⟩, none) := by
  exact ⟨by decide, by decide⟩

/-- C2.  The spec says that with `attempts = k` and a transport that
fails every time, the result carries `attempt_count == k` and the
error is the transport error wrapped with exhaustion information.  In
the code the transport-error branch returns directly on the last
attempt with the result produced by `ExecuteRequest` — whose attempt
count is the constant 1 — and the unwrapped `request failed` error;
the wrapping branch after the loop is unreachable.  Evaluated at
k = 3. -/
theorem claimC2_attempt_count_stuck_at_one :
    executeRequestWithRetry plainCfg stubEnv (fun _ => .err "connection refused")
        (some ⟨3, 100, 1000, "fixed", false, [], false⟩) none
      = (some ⟨0, [], "", 1, "connection refused"⟩,
         some (.requestFailed "connection refused")) := by
  decide

/-- C3.  The spec says the expectation validator evaluates
`json_path_exists` / `json_path_equals` checks and fails when the body
is not valid JSON.  The source reads those fields into the model but
never checks them (an explicit TODO), so the validator's verdict is
independent of them; a response with a non-JSON body and a requested
JSON-path check passes cleanly. -/
theorem claimC3_json_path_checks_ignored :
    (∀ (r : ResponseResult) (sc : Option (List Int))
        (jpe : Option (List String)) (jpq : Option (List (String × String)))
        (hp : Option (List String)),
      validateExpectations r (some ⟨sc, jpe, jpq, hp⟩) =
        validateExpectations r (some ⟨sc, none, none, hp⟩)) ∧
    validateExpectations ⟨200, [("Content-Type", "text/plain")], "not json", 1, ""⟩
        (some ⟨some [200], some ["data.id"], some [("a", "1")], none⟩) = none := by
  exact ⟨fun r sc jpe jpq hp => rfl, by decide⟩

/-- C5.  The spec says a body reaching the transport-level cap is
truncated and the sentinel `... [TRUNCATED]` is appended.  Because
`io.LimitReader` never yields more than the cap, `TruncateString` is
always called with a string no longer than its limit and returns it
unchanged, so the sentinel is never appended: the general shape shows
the returned body is always exactly the first `max_response_body_bytes`
bytes of the wire body, and the instance evaluates the failing input
(cap 5, wire body of 8 bytes). -/
theorem claimC5_sentinel_never_appended :
    (∀ (cfg : ProviderCfg) (st : Int) (hdrs : List (String × List String))
        (body : String),
      executeRequest cfg (.resp st hdrs body) =
        .ok ⟨st, hdrs.map (fun kv => (kv.1, joinHeaderValues kv.2)),
          ⟨body.data.take cfg.maxResponseBodyBytes⟩, 1, ""⟩) ∧
    executeRequest ⟨[], 5⟩ (.resp 200 [] "abcdefgh") =
      .ok ⟨200, [], "abcde", 1, ""⟩ := by
  constructor
  · intro cfg st hdrs body
    have hlen : (body.data.take cfg.maxResponseBodyBytes).length ≤
        cfg.maxResponseBodyBytes := by
      simp [List.length_take]
    simp only [executeRequest, truncateString]
    split_ifs with h1 <;> rfl
  · decide

/-- C4.  A destroy spec whose template-bearing fields contain
`$\x7bself.outputs.KEY\x7d` for a KEY absent from the prior outputs makes
the Delete handler abort during expansion: the reported key is a
missing one, no transport I/O happens for the destroy request, and the
prior state is retained. -/
theorem claimC4_missing_key_aborts_destroy
    (ictx : InterpolationContext) (cfg : DestroyConfig)
    (text : String) (pre key post : List Char)
    (hmem : text ∈ destroyTemplateFields cfg)
    (hdec : text.data = pre ++ tmplFor key ++ post)
    (hk : key ≠ []) (hw : ∀ c ∈ key, isWordChar c)
    (hmiss : goMapGet ictx.outputs ⟨key⟩ = none) :
    ∃ k, deleteRun (some cfg) ictx = .interpFailed k ∧
      goMapGet ictx.outputs k = none ∧
      deleteReachesTransport (deleteRun (some cfg) ictx) = false ∧
      deleteStateAfter ictx (deleteRun (some cfg) ictx) = some ictx := by
  cases hE : expandDestroy ictx cfg with
  | ok cfg2 =>
    exfalso
    obtain ⟨v, hv⟩ := expandDestroy_ok_fields hE text hmem
    have htext : text = (⟨pre ++ tmplFor key ++ post⟩ : String) := by
      cases text with
      | mk data => exact congrArg String.mk hdec
    obtain ⟨k, hke, _⟩ := interpolateString_error_of_tmpl ictx pre key post hk hw hmiss
    rw [htext, hke] at hv
    exact Except.noConfusion hv
  | error k =>
    refine ⟨k, ?_, expandDestroy_err_missing hE, ?_, ?_⟩ <;>
      simp [deleteRun, hE, deleteReachesTransport, deleteStateAfter]

/-- Witness for C4 at a concrete destroy spec and prior state. -/
theorem claimC4_missing_key_aborts_destroy_witness :
    ∃ k,
      deleteRun
          (some ⟨some "http://x/$\x7bself.outputs.missing\x7d", "DELETE",
            none, [], none, none, none⟩)
          ⟨"id1", [("a", "1")], "", 0⟩ = .interpFailed k ∧
      goMapGet ([("a", "1")] : List (String × String)) k = none ∧
      deleteReachesTransport
          (deleteRun
            (some ⟨some "http://x/$\x7bself.outputs.missing\x7d", "DELETE",
              none, [], none, none, none⟩)
            ⟨"id1", [("a", "1")], "", 0⟩) = false ∧
      deleteStateAfter (⟨"id1", [("a", "1")], "", 0⟩ : InterpolationContext)
          (deleteRun
            (some ⟨some "http://x/$\x7bself.outputs.missing\x7d", "DELETE",
              none, [], none, none, none⟩)
            ⟨"id1", [("a", "1")], "", 0⟩) =
        some ⟨"id1", [("a", "1")], "", 0⟩ :=
  claimC4_missing_key_aborts_destroy
    ⟨"id1", [("a", "1")], "", 0⟩
    ⟨some "http://x/$\x7bself.outputs.missing\x7d", "DELETE", none, [], none, none, none⟩
    "http://x/$\x7bself.outputs.missing\x7d" "http://x/".data "missing".data []
    (by decide) (by decide) (by decide) (by decide) (by decide)

/-! ## Lemmas about the redaction pass -/

/-- `goSubstr` accepts any prefix occurrence. -/
theorem goSubstr_of_prefix {p hay : List Char} (h : p <+: hay) :
    goSubstr hay p = true := by
  cases hay with
  | nil =>
    have : p = [] := List.prefix_nil.mp h
    simp [goSubstr, this]
  | cons c t =>
    rw [goSubstr]
    have : p.isPrefixOf (c :: t) := List.isPrefixOf_iff_prefix.mpr h
    simp [this]

/-- Replacement is the identity when the pattern does not occur. -/
theorem goReplaceAllNEF_no_occ (p r : List Char) :
    ∀ fuel s, ¬ (p <:+: s) → goReplaceAllNEF p r fuel s = s := by
  intro fuel
  induction fuel with
  | zero => intro s _; rfl
  | succ fuel ih =>
    intro s hocc
    cases s with
    | nil => rfl
    | cons c t =>
      rw [goReplaceAllNEF]
      have hpre : ¬ (p.isPrefixOf (c :: t) = true) := by
        intro hp2
        exact hocc (List.isPrefixOf_iff_prefix.mp hp2).isInfix
      rw [if_neg (by intro hand; exact hpre hand.1)]
      congr 1
      exact ih t (fun h => hocc (List.infix_cons h))

/-- Replacement fires when the pattern sits at the head. -/
theorem goReplaceAllNEF_head_occ (p r : List Char) (hp : p ≠ [])
    (fuel : Nat) (t : List Char) :
    goReplaceAllNEF p r (fuel + 1) (p ++ t) = r ++ goReplaceAllNEF p r fuel t := by
  cases p with
  | nil => exact absurd rfl hp
  | cons a p2 =>
    rw [List.cons_append, goReplaceAllNEF]
    have hpre : (a :: p2).isPrefixOf (a :: (p2 ++ t)) :=
      List.isPrefixOf_iff_prefix.mpr ⟨t, by simp⟩
    rw [if_pos ⟨hpre, hp⟩]
    have hdrop : (a :: (p2 ++ t)).drop (a :: p2).length = t := by
      rw [← List.cons_append, List.drop_left]
    rw [hdrop]

/-- C7, counterexample.  The claim says the redacted diagnostic never
contains a redacted header's original value.  `RedactError` replaces
only the header NAME: for the pre-redaction message
`Authorization: secret123` with `Authorization` on the redact list,
the value `secret123` appears both before and after redaction. -/
theorem claimC7_value_survives_redaction :
    redactError "Authorization: secret123" ["Authorization"] =
      "[REDACTED]: secret123" ∧
    "secret123".data <:+: "Authorization: secret123".data ∧
    "secret123".data <:+: "[REDACTED]: secret123".data := by
  exact ⟨by decide, by decide, by decide⟩

/-- C7, amended.  The redaction pass replaces occurrences of the
header NAME with `[REDACTED]` and leaves the rest of the message — in
particular the header value — in place: for a message of the shape
`NAME: value` where the name does not reoccur in `: value`, the
output is exactly `[REDACTED]: value`. -/
theorem claimC7_amended_name_replaced (H v : String) (hH : H.data ≠ [])
    (hnot : ¬ (H.data <:+: (": " ++ v).data)) :
    redactError (H ++ ": " ++ v) [H] = "[REDACTED]" ++ ": " ++ v := by
  have hdata : (H ++ ": " ++ v).data = H.data ++ (": " ++ v).data := by
    rw [String.append_assoc, String.data_append]
  have hcond : goSubstr (goToLower (H ++ ": " ++ v).data) (goToLower H.data) = true := by
    apply goSubstr_of_prefix
    rw [hdata]
    unfold goToLower
    rw [List.map_append]
    exact ⟨_, rfl⟩
  have hlen : (H ++ ": " ++ v).data.length = (H.data.length - 1) + 1 +
      (": " ++ v).data.length := by
    rw [hdata]
    simp only [List.length_append]
    have : 1 ≤ H.data.length := by
      cases hd : H.data with
      | nil => exact absurd hd hH
      | cons a t => simp
    omega
  simp only [redactError, List.foldl, hcond, if_true]
  unfold goReplaceAll
  rw [if_neg hH]
  apply String.ext
  show goReplaceAllNE H.data "[REDACTED]".data (H ++ ": " ++ v).data =
    ("[REDACTED]" ++ ": " ++ v).data
  unfold goReplaceAllNE
  rw [hlen]
  conv_lhs => rw [hdata]
  have harith : H.data.length - 1 + 1 + (": " ++ v).data.length =
      (H.data.length - 1 + (": " ++ v).data.length) + 1 := by omega
  rw [harith]
  rw [goReplaceAllNEF_head_occ H.data "[REDACTED]".data hH
    ((H.data.length - 1) + (": " ++ v).data.length) (": " ++ v).data]
  rw [goReplaceAllNEF_no_occ H.data "[REDACTED]".data _ _ hnot]
  simp [String.data_append]

/-- Witness for the amended C7 at a concrete header and value. -/
theorem claimC7_amended_name_replaced_witness :
    redactError ("Authorization" ++ ": " ++ "tok123") ["Authorization"] =
      "[REDACTED]" ++ ": " ++ "tok123" :=
  claimC7_amended_name_replaced "Authorization" "tok123" (by decide) (by decide)

/-! ## Request builder -/

/-- Round-trip of `Char.ofNat` on valid scalar values below the
surrogate range. -/
theorem char_toNat_ofNat {n : Nat} (h : n < 55296) : (Char.ofNat n).toNat = n := by
  unfold Char.ofNat
  rw [dif_pos (Or.inl h)]
  simp [Char.toNat, Char.ofNatAux, UInt32.ofNat', UInt32.toNat]

/-- Lower-casing is idempotent. -/
theorem goLowerChar_goLowerChar (c : Char) :
    goLowerChar (goLowerChar c) = goLowerChar c := by
  unfold goLowerChar
  by_cases h1 : 65 ≤ c.toNat ∧ c.toNat ≤ 90
  · rw [if_pos h1]
    have ht : (Char.ofNat (c.toNat + 32)).toNat = c.toNat + 32 :=
      char_toNat_ofNat (by omega)
    rw [if_neg (by rw [ht]; omega)]
  · rw [if_neg h1, if_neg h1]

/-- Lower-casing absorbs upper-casing. -/
theorem goLowerChar_goUpperChar (c : Char) :
    goLowerChar (goUpperChar c) = goLowerChar c := by
  unfold goUpperChar
  by_cases h1 : 97 ≤ c.toNat ∧ c.toNat ≤ 122
  · rw [if_pos h1]
    have ht : (Char.ofNat (c.toNat - 32)).toNat = c.toNat - 32 :=
      char_toNat_ofNat (by omega)
    unfold goLowerChar
    rw [if_pos (by rw [ht]; omega), if_neg (by omega), ht]
    have harith : c.toNat - 32 + 32 = c.toNat := by omega
    rw [harith, Char.ofNat_toNat]
  · rw [if_neg h1]

/-- The characters Go's MIME canonicalisation treats as header token
characters (net/textproto `validHeaderFieldByte`). -/
def isTokenChar (c : Char) : Bool :=
  (97 ≤ c.toNat ∧ c.toNat ≤ 122) ∨ (65 ≤ c.toNat ∧ c.toNat ≤ 90) ∨
  (48 ≤ c.toNat ∧ c.toNat ≤ 57) ∨
  c ∈ ['!', '#', '$', '%', '&', '*', '+', '-', '.', '^', '_', '|', '~',
    Char.ofNat 39, Char.ofNat 96]

/-- The casing loop of `textproto.CanonicalMIMEHeaderKey`: upper-case
the first character and every character following a hyphen, lower-case
the rest. -/
def canonGo : List Char → Bool → List Char
  | [], _ => []
  | c :: t, upper =>
    (if upper then goUpperChar c else goLowerChar c) :: canonGo t (c = '-')

/-- `textproto.CanonicalMIMEHeaderKey`: canonicalise a valid header
key, return invalid keys unchanged. -/
def canonicalMIME (s : String) : String :=
  if s.data.all isTokenChar then ⟨canonGo s.data true⟩ else s

/-- Canonicalisation only changes letter case. -/
theorem goToLower_canonGo (s : List Char) :
    ∀ upper, goToLower (canonGo s upper) = goToLower s := by
  induction s with
  | nil => intro upper; rfl
  | cons c t ih =>
    intro upper
    unfold canonGo goToLower
    simp only [List.map_cons]
    have hhead : goLowerChar (if upper then goUpperChar c else goLowerChar c) =
        goLowerChar c := by
      split_ifs
      · exact goLowerChar_goUpperChar c
      · exact goLowerChar_goLowerChar c
    rw [hhead]
    have := ih (c = '-')
    unfold goToLower at this
    rw [this]

/-- Canonicalisation preserves the lower-cased form of a key. -/
theorem goToLower_canonicalMIME (s : String) :
    goToLower (canonicalMIME s).data = goToLower s.data := by
  unfold canonicalMIME
  split_ifs with h
  · exact goToLower_canonGo s.data true
  · rfl

/-- Keys equal after canonicalisation are equal after lower-casing. -/
theorem lower_eq_of_canonical_eq {a b : String}
    (h : canonicalMIME a = canonicalMIME b) :
    goToLower a.data = goToLower b.data := by
  have := congrArg (fun s => goToLower s.data) h
  simpa [goToLower_canonicalMIME] using this

/-- `http.Header.Add`: canonicalise the key, append the value to the
existing value list or start a new entry. -/
def headerAdd (h : List (String × List String)) (k v : String) :
    List (String × List String) :=
  let ck := canonicalMIME k
  if h.any (fun kv => kv.1 = ck) then
    h.map (fun kv => if kv.1 = ck then (kv.1, kv.2 ++ [v]) else kv)
  else h ++ [(ck, [v])]

/-- `http.Header.Set`: canonicalise the key, replace the value list. -/
def headerSet (h : List (String × List String)) (k v : String) :
    List (String × List String) :=
  let ck := canonicalMIME k
  if h.any (fun kv => kv.1 = ck) then
    h.map (fun kv => if kv.1 = ck then (kv.1, [v]) else kv)
  else h ++ [(ck, [v])]

/-- `http.Header.Values`: the ordered values stored under the
canonicalised key (empty when absent). -/
def getHV (h : List (String × List String)) (k : String) : List String :=
  ((h.find? (fun kv => kv.1 = canonicalMIME k)).map (·.2)).getD []

/-- Go map assignment `m[k] = vs` on the lowercase-keyed merge map. -/
def assocSet (m : List (String × List String)) (k : String) (vs : List String) :
    List (String × List String) :=
  if m.any (fun kv => kv.1 = k) then
    m.map (fun kv => if kv.1 = k then (kv.1, vs) else kv)
  else m ++ [(k, vs)]

/-- Go map lookup on the lowercase-keyed merge map. -/
def assocGet (m : List (String × List String)) (k : String) :
    Option (List String) :=
  (m.find? (fun kv => kv.1 = k)).map (·.2)

/-- UTF-8 encoding of one scalar value, as Go strings store text. -/
def utf8EncodeChar (c : Char) : List Nat :=
  let n := c.toNat
  if n < 128 then [n]
  else if n < 2048 then [192 + n / 64, 128 + n % 64]
  else if n < 65536 then [224 + n / 4096, 128 + (n / 64) % 64, 128 + n % 64]
  else [240 + n / 262144, 128 + (n / 4096) % 64, 128 + (n / 64) % 64, 128 + n % 64]

/-- The byte sequence of a Go string. -/
def utf8Bytes (s : String) : List Nat := (s.data.map utf8EncodeChar).flatten

/-- The standard base64 alphabet. -/
def base64Alphabet : List Char :=
  "ABCDEFGHIJKLMNOPQRSTUVWXYZabcdefghijklmnopqrstuvwxyz0123456789+/".data

/-- One output character of the base64 encoder. -/
def b64Char (n : Nat) : Char := base64Alphabet.getD n 'A'

/-- `encoding/base64.StdEncoding.EncodeToString` over raw bytes. -/
def goBase64Bytes : List Nat → List Char
  | [] => []
  | [b1] => [b64Char (b1 / 4), b64Char (b1 % 4 * 16), '=', '=']
  | [b1, b2] =>
    [b64Char (b1 / 4), b64Char (b1 % 4 * 16 + b2 / 16), b64Char (b2 % 16 * 4), '=']
  | b1 :: b2 :: b3 :: rest =>
    b64Char (b1 / 4) :: b64Char (b1 % 4 * 16 + b2 / 16) ::
      b64Char (b2 % 16 * 4 + b3 / 64) :: b64Char (b3 % 64) :: goBase64Bytes rest

/-- Base64 of a Go string's bytes. -/
def goBase64 (s : String) : String := ⟨goBase64Bytes (utf8Bytes s)⟩

/-- The request-level basic-auth block (`ResourceBasicAuthModel`):
Terraform nulls are `none`. -/
structure ResourceBasicAuth where
  username : Option String
  password : Option String
deriving DecidableEq, Repr

/-- Provider-wide defaults consumed by the builder (`ProviderConfig`):
default headers map, default basic credential (plain strings), and the
default bearer token pointer. -/
structure ProviderDefaults where
  defaultHeaders : Option (List (String × String))
  basicAuth : Option (String × String)
  bearerToken : Option String
deriving DecidableEq, Repr

/-- `provider.RequestConfig` (request_builder.go): Terraform nulls and
unknowns are `none`; header blocks carry possibly-null name/value. -/
structure RequestCfg where
  url : String
  method : String
  headers : Option (List (String × String))
  headerBlocks : List (Option String × Option String)
  query : Option (List (String × String))
  body : Option String
  bodyJson : Option String
  bodyFile : Option String
  basicAuth : Option ResourceBasicAuth
  bearerToken : Option String
  providerDefaults : Option ProviderDefaults
deriving DecidableEq, Repr

/-- The built request: method, parsed URL with merged query, the wire
header map, and the body bytes. -/
structure GoRequest where
  method : String
  urlBase : String
  query : List (String × String)
  headers : List (String × List String)
  body : Option String
deriving DecidableEq, Repr

/-- A `types.String` field counts as set when it is non-null,
non-unknown and non-empty (the builder's triple check). -/
def strSet : Option String → Bool
  | none => false
  | some s => s ≠ ""

/-- Exact-key Go map lookup returning the zero value for a missing key
or a nil map, as `config.Headers["Content-Type"]` does. -/
def goMapGetZero (m : Option (List (String × String))) (k : String) : String :=
  match m with
  | none => ""
  | some l => ((l.find? (fun kv => kv.1 = k)).map (·.2)).getD ""

/-- The body-selection step of `BuildRequest` (lines 72-105): pick the
single body source, validate JSON by parse-and-marshal, read files
through the environment; also decide whether a `Content-Type` will
have to be set (exact-key lookup in the request headers map only). -/
def computeBody (env : GoLib) (cfg : RequestCfg) :
    Except String (Option String × Bool) :=
  if strSet cfg.body then
    .ok (some (cfg.body.getD ""), false)
  else if strSet cfg.bodyJson then
    match env.jsonParse (cfg.bodyJson.getD "") with
    | none => .error "invalid JSON in body_json"
    | some jsonData =>
      .ok (some (env.jsonMarshal jsonData),
        goMapGetZero cfg.headers "Content-Type" = "")
  else if strSet cfg.bodyFile then
    match env.readFile (cfg.bodyFile.getD "") with
    | none => .error "failed to open body_file"
    | some content => .ok (some content, false)
  else .ok (none, false)

/-- One pass of map-merge with lower-cased keys (the `range` loops at
lines 122-133 of the builder). -/
def lowerSetFold (entries : List (String × String))
    (m : List (String × List String)) : List (String × List String) :=
  entries.foldl (fun acc kv => assocSet acc ⟨goToLower kv.1.data⟩ [kv.2]) m

/-- The header-block pass (lines 136-145): a block with non-null name
and value appends to the entry under its lower-cased name. -/
def blockFold (blocks : List (Option String × Option String))
    (m : List (String × List String)) : List (String × List String) :=
  blocks.foldl
    (fun acc b =>
      match b.1, b.2 with
      | some name, some value =>
        match assocGet acc ⟨goToLower name.data⟩ with
        | some existing => assocSet acc ⟨goToLower name.data⟩ (existing ++ [value])
        | none => assocSet acc ⟨goToLower name.data⟩ [value]
      | _, _ => acc) m

/-- The provider default headers visible to the merge. -/
def defaultHeadersOf (cfg : RequestCfg) : List (String × String) :=
  match cfg.providerDefaults with
  | some pd => pd.defaultHeaders.getD []
  | none => []

/-- The header-merge step of `BuildRequest` (lines 118-150): provider
defaults, then the request headers map (both with lower-cased keys,
later assignments overwriting), then header blocks (appending), then
the JSON `Content-Type` overwrite. -/
def mergeHeaders (cfg : RequestCfg) (contentTypeSet : Bool) :
    List (String × List String) :=
  if contentTypeSet then
    assocSet
      (blockFold cfg.headerBlocks
        (lowerSetFold (cfg.headers.getD [])
          (lowerSetFold (defaultHeadersOf cfg) []))) "content-type"
      ["application/json"]
  else
    blockFold cfg.headerBlocks
      (lowerSetFold (cfg.headers.getD []) (lowerSetFold (defaultHeadersOf cfg) []))

/-- The application step (lines 152-157): pour the merged map into the
wire header via `Add`. -/
def applyHeaderMap (m : List (String × List String)) :
    List (String × List String) :=
  m.foldl (fun h kv => kv.2.foldl (fun h2 v => headerAdd h2 kv.1 v) h) []

/-- The basic-auth step (lines 159-182), over the request-level block
and the provider default credential: a request-level block wins the
slot even when unusable; credentials are only written when both parts
are non-empty. -/
def applyBasicAuth (ba : Option ResourceBasicAuth)
    (pdba : Option (String × String)) (h : List (String × List String)) :
    List (String × List String) :=
  match ba with
  | some b =>
    if b.username.getD "" ≠ "" ∧ b.password.getD "" ≠ "" then
      headerSet h "Authorization"
        ("Basic " ++ goBase64 (b.username.getD "" ++ ":" ++ b.password.getD ""))
    else h
  | none =>
    match pdba with
    | some up =>
      if up.1 ≠ "" ∧ up.2 ≠ "" then
        headerSet h "Authorization" ("Basic " ++ goBase64 (up.1 ++ ":" ++ up.2))
      else h
    | none => h

/-- The bearer step (lines 184-188): a non-empty request token, else
any provider token pointer (even empty), overwrites `Authorization`. -/
def applyBearer (tok : Option String) (pdtok : Option String)
    (h : List (String × List String)) : List (String × List String) :=
  if strSet tok then
    headerSet h "Authorization" ("Bearer " ++ tok.getD "")
  else
    match pdtok with
    | some t => headerSet h "Authorization" ("Bearer " ++ t)
    | none => h

/-- The provider default basic credential as the builder reads it
(`ProviderDefaults != nil && BasicAuth != nil`). -/
def pdBasicOf (cfg : RequestCfg) : Option (String × String) :=
  match cfg.providerDefaults with
  | some pd => pd.basicAuth
  | none => none

/-- The provider default bearer pointer as the builder reads it. -/
def pdBearerOf (cfg : RequestCfg) : Option String :=
  match cfg.providerDefaults with
  | some pd => pd.bearerToken
  | none => none

/-- The body-conflict check (lines 56-69). -/
def bodyConflict (cfg : RequestCfg) : Bool :=
  ((if strSet cfg.body then 1 else 0) + (if strSet cfg.bodyJson then 1 else 0) +
    (if strSet cfg.bodyFile then 1 else 0)) > 1

/-- `BuildRequest` after a successful URL parse: conflict check, body
resolution, header merge and application, then authentication. -/
def buildRequestAfterUrl (env : GoLib) (cfg : RequestCfg)
    (u : String × List (String × String)) : Except String GoRequest :=
  if bodyConflict cfg then
    .error "only one of body, body_json, or body_file can be set"
  else
    match computeBody env cfg with
    | .error e => .error e
    | .ok bodyAndCT =>
      .ok ⟨cfg.method, u.1, u.2 ++ cfg.query.getD [],
        applyBearer cfg.bearerToken (pdBearerOf cfg)
          (applyBasicAuth cfg.basicAuth (pdBasicOf cfg)
            (applyHeaderMap (mergeHeaders cfg bodyAndCT.2))),
        bodyAndCT.1⟩

/-- `provider.BuildRequest` (request_builder.go): parse the URL, then
run the rest of the pipeline. -/
def buildRequest (env : GoLib) (cfg : RequestCfg) : Except String GoRequest :=
  match env.urlParse cfg.url with
  | none => .error "invalid URL"
  | some u => buildRequestAfterUrl env cfg u

/-! ## Lemmas about the wire header operations -/

/-- `find?` commutes with a key-preserving map. -/
theorem find_map_keyfix (g : String × List String → String × List String)
    (hg : ∀ kv, (g kv).1 = kv.1) (K : String) :
    ∀ h : List (String × List String),
      (h.map g).find? (fun kv => kv.1 = K) =
        (h.find? (fun kv => kv.1 = K)).map g := by
  intro h
  induction h with
  | nil => rfl
  | cons kv t ih =>
    simp only [List.map_cons, List.find?]
    rw [hg kv]
    by_cases hk : kv.1 = K
    · simp [hk]
    · simp only [hk, decide_eq_false, Bool.false_eq_true, if_false]
      simpa [hk] using ih

/-- After `Set`, reading the same canonical key gives exactly the one
value. -/
theorem getHV_headerSet_same (h : List (String × List String)) (k v K : String)
    (hck : canonicalMIME k = canonicalMIME K) :
    getHV (headerSet h k v) K = [v] := by
  unfold headerSet getHV
  rw [hck]
  by_cases hany : h.any (fun kv => kv.1 = canonicalMIME K)
  · rw [if_pos hany]
    rw [find_map_keyfix _ (fun kv => by split_ifs <;> rfl)]
    rcases hf : h.find? (fun kv => kv.1 = canonicalMIME K) with _ | kv1
    · obtain ⟨kv0, hmem, hp⟩ := List.any_eq_true.mp hany
      rw [List.find?_eq_none] at hf
      exact absurd hp (by simpa using hf kv0 hmem)
    · have hp1 : kv1.1 = canonicalMIME K := by simpa using List.find?_some hf
      rw [hf]
      simp [hp1]
  · rw [if_neg hany]
    have hnone : h.find? (fun kv => kv.1 = canonicalMIME K) = none := by
      rw [List.find?_eq_none]
      intro kv hmem
      exact fun hp => hany (List.any_eq_true.mpr ⟨kv, hmem, hp⟩)
    rw [List.find?_append, hnone]
    simp

/-- `Set` on one canonical key leaves other keys untouched. -/
theorem getHV_headerSet_other (h : List (String × List String)) (k v K : String)
    (hck : canonicalMIME k ≠ canonicalMIME K) :
    getHV (headerSet h k v) K = getHV h K := by
  unfold headerSet getHV
  by_cases hany : h.any (fun kv => kv.1 = canonicalMIME k)
  · rw [if_pos hany]
    rw [find_map_keyfix _ (fun kv => by split_ifs <;> rfl)]
    rcases hf : h.find? (fun kv => kv.1 = canonicalMIME K) with _ | kv1
    · rw [hf]; rfl
    · have hp1 : kv1.1 = canonicalMIME K := by simpa using List.find?_some hf
      have hne1 : ¬ (kv1.1 = canonicalMIME k) := fun h2 => hck (by rw [← h2, hp1])
      rw [hf]
      simp [hne1]
  · rw [if_neg hany]
    rw [List.find?_append]
    simp [List.find?, hck]

/-- `Add` appends under the matching canonical key and leaves other
keys untouched. -/
theorem getHV_headerAdd (h : List (String × List String)) (k v K : String) :
    getHV (headerAdd h k v) K =
      if canonicalMIME k = canonicalMIME K then getHV h K ++ [v]
      else getHV h K := by
  unfold headerAdd getHV
  by_cases hck : canonicalMIME k = canonicalMIME K
  · rw [if_pos hck, hck]
    by_cases hany : h.any (fun kv => kv.1 = canonicalMIME K)
    · rw [if_pos hany]
      rw [find_map_keyfix _ (fun kv => by split_ifs <;> rfl)]
      rcases hf : h.find? (fun kv => kv.1 = canonicalMIME K) with _ | kv1
      · obtain ⟨kv0, hmem, hp⟩ := List.any_eq_true.mp hany
        rw [List.find?_eq_none] at hf
        exact absurd hp (by simpa using hf kv0 hmem)
      · have hp1 : kv1.1 = canonicalMIME K := by simpa using List.find?_some hf
        rw [hf]
        simp [hp1]
    · rw [if_neg hany]
      have hnone : h.find? (fun kv => kv.1 = canonicalMIME K) = none := by
        rw [List.find?_eq_none]
        intro kv hmem
        exact fun hp => hany (List.any_eq_true.mpr ⟨kv, hmem, hp⟩)
      rw [List.find?_append, hnone]
      simp
  · rw [if_neg hck]
    by_cases hany : h.any (fun kv => kv.1 = canonicalMIME k)
    · rw [if_pos hany]
      rw [find_map_keyfix _ (fun kv => by split_ifs <;> rfl)]
      rcases hf : h.find? (fun kv => kv.1 = canonicalMIME K) with _ | kv1
      · rw [hf]; rfl
      · have hp1 : kv1.1 = canonicalMIME K := by simpa using List.find?_some hf
        have hne1 : ¬ (kv1.1 = canonicalMIME k) := fun h2 => hck (by rw [← h2, hp1])
        rw [hf]
        simp [hne1]
    · rw [if_neg hany]
      rw [List.find?_append]
      simp [List.find?, hck]

/-- Folding `Add` over a value list appends the whole list under the
matching canonical key. -/
theorem getHV_foldAdd (k K : String) (vs : List String) :
    ∀ h, getHV (vs.foldl (fun h2 v => headerAdd h2 k v) h) K =
      getHV h K ++ (if canonicalMIME k = canonicalMIME K then vs else []) := by
  induction vs with
  | nil => intro h; simp
  | cons v vs ih =>
    intro h
    simp only [List.foldl_cons]
    rw [ih (headerAdd h k v), getHV_headerAdd]
    split_ifs with hck
    · simp
    · simp

/-- Pouring the merged map into the wire header collects, per wire
key, the value lists of all merge entries with that canonical key, in
order. -/
theorem getHV_applyHeaderMap (m : List (String × List String)) (K : String) :
    getHV (applyHeaderMap m) K =
      ((m.filter (fun kv => canonicalMIME kv.1 = canonicalMIME K)).map (·.2)).flatten := by
  unfold applyHeaderMap
  have hgen : ∀ (mm : List (String × List String)) (h0 : List (String × List String)),
      getHV (mm.foldl (fun h kv => kv.2.foldl (fun h2 v => headerAdd h2 kv.1 v) h) h0) K =
        getHV h0 K ++
          ((mm.filter (fun kv => canonicalMIME kv.1 = canonicalMIME K)).map (·.2)).flatten := by
    intro mm
    induction mm with
    | nil => intro h0; simp
    | cons kv t ih =>
      intro h0
      simp only [List.foldl_cons]
      rw [ih, getHV_foldAdd]
      by_cases hck : canonicalMIME kv.1 = canonicalMIME K
      · simp [List.filter, hck, List.append_assoc]
      · simp [List.filter, hck]
  rw [hgen m []]
  rfl

/-- Map assignment stores the new value list under the key. -/
theorem assocGet_assocSet_same (m : List (String × List String))
    (k : String) (vs : List String) :
    assocGet (assocSet m k vs) k = some vs := by
  unfold assocSet assocGet
  by_cases hany : m.any (fun kv => kv.1 = k)
  · rw [if_pos hany]
    rw [find_map_keyfix _ (fun kv => by split_ifs <;> rfl)]
    rcases hf : m.find? (fun kv => kv.1 = k) with _ | kv1
    · obtain ⟨kv0, hmem, hp⟩ := List.any_eq_true.mp hany
      rw [List.find?_eq_none] at hf
      exact absurd hp (by simpa using hf kv0 hmem)
    · have hp1 : kv1.1 = k := by simpa using List.find?_some hf
      rw [hf]
      simp [hp1]
  · rw [if_neg hany]
    have hnone : m.find? (fun kv => kv.1 = k) = none := by
      rw [List.find?_eq_none]
      intro kv hmem
      exact fun hp => hany (List.any_eq_true.mpr ⟨kv, hmem, hp⟩)
    rw [List.find?_append, hnone]
    simp

/-- Map assignment leaves other keys untouched. -/
theorem assocGet_assocSet_other (m : List (String × List String))
    (k k2 : String) (vs : List String) (hne : k ≠ k2) :
    assocGet (assocSet m k vs) k2 = assocGet m k2 := by
  unfold assocSet assocGet
  by_cases hany : m.any (fun kv => kv.1 = k)
  · rw [if_pos hany]
    rw [find_map_keyfix _ (fun kv => by split_ifs <;> rfl)]
    rcases hf : m.find? (fun kv => kv.1 = k2) with _ | kv1
    · rw [hf]; rfl
    · have hp1 : kv1.1 = k2 := by simpa using List.find?_some hf
      have hne1 : ¬ (kv1.1 = k) := fun h2 => hne (by rw [← h2, hp1])
      rw [hf]
      simp [hne1]
  · rw [if_neg hany]
    rw [List.find?_append]
    simp only [List.find?, decide_eq_true_eq]
    rw [decide_eq_false hne]
    simp

/-- The invariant of the lowercase merge map: every key is already
lower-case and keys are pairwise distinct. -/
def mergeInv (m : List (String × List String)) : Prop :=
  (∀ kv ∈ m, goToLower kv.1.data = kv.1.data) ∧ (m.map (·.1)).Nodup

/-- Assignment with a lower-case key preserves the merge invariant. -/
theorem mergeInv_assocSet {m : List (String × List String)} (hm : mergeInv m)
    (k : String) (vs : List String) (hk : goToLower k.data = k.data) :
    mergeInv (assocSet m k vs) := by
  unfold assocSet
  by_cases hany : m.any (fun kv => kv.1 = k)
  · rw [if_pos hany]
    constructor
    · intro kv hmem
      rw [List.mem_map] at hmem
      obtain ⟨kv0, hkv0, hfe⟩ := hmem
      by_cases he : kv0.1 = k
      · rw [← hfe]
        simp only [he, if_true]
        exact he ▸ hm.1 kv0 hkv0
      · rw [← hfe]
        simp only [he, if_false]
        exact hm.1 kv0 hkv0
    · have : (assocSet m k vs).map (·.1) = m.map (·.1) := by
        unfold assocSet
        rw [if_pos hany]
        rw [List.map_map]
        apply List.map_congr_left
        intro kv _
        simp only [Function.comp]
        split_ifs <;> rfl
      unfold assocSet at this
      rw [if_pos hany] at this
      rw [this]
      exact hm.2
  · rw [if_neg hany]
    constructor
    · intro kv hmem
      rw [List.mem_append] at hmem
      rcases hmem with hmem | hmem
      · exact hm.1 kv hmem
      · simp only [List.mem_singleton] at hmem
        rw [hmem]
        exact hk
    · rw [List.map_append]
      simp only [List.map_cons, List.map_nil]
      rw [List.nodup_append]
      refine ⟨hm.2, List.nodup_singleton k, ?_⟩
      intro x hx
      simp only [List.mem_singleton]
      intro hxk
      rw [List.mem_map] at hx
      obtain ⟨kv0, hkv0, hfe⟩ := hx
      apply hany
      exact List.any_eq_true.mpr ⟨kv0, hkv0, by simp [hfe, hxk]⟩

/-- Lower-casing a string is idempotent. -/
theorem goToLower_idem (l : List Char) : goToLower (goToLower l) = goToLower l := by
  unfold goToLower
  rw [List.map_map]
  apply List.map_congr_left
  intro c _
  exact goLowerChar_goLowerChar c

/-- In a merge map satisfying the invariant and holding one
`content-type` entry, that entry is the only one whose canonical form
is `Content-Type`. -/
theorem filter_canonical_single {m : List (String × List String)} {vs : List String}
    (hinv : mergeInv m) (hget : assocGet m "content-type" = some vs) :
    m.filter (fun kv => canonicalMIME kv.1 = canonicalMIME "Content-Type") =
      [("content-type", vs)] := by
  induction m with
  | nil => simp [assocGet] at hget
  | cons kv t ih =>
    have hnodup : (kv.1 :: t.map (·.1)).Nodup := by
      have h2 := hinv.2
      rw [List.map_cons] at h2
      exact h2
    have hinvt : mergeInv t :=
      ⟨fun x hx => hinv.1 x (List.mem_cons_of_mem _ hx),
       (List.nodup_cons.mp hnodup).2⟩
    by_cases hk : kv.1 = "content-type"
    · have hvs : kv.2 = vs := by
        unfold assocGet at hget
        simp [List.find?, hk] at hget
        exact hget
      have hpred : canonicalMIME kv.1 = canonicalMIME "Content-Type" := by
        rw [hk]; decide
      have hnotin : "content-type" ∉ t.map (·.1) := by
        have h2 := (List.nodup_cons.mp hnodup).1
        rw [hk] at h2
        exact h2
      have hfilt : t.filter
          (fun kv => canonicalMIME kv.1 = canonicalMIME "Content-Type") = [] := by
        rw [List.filter_eq_nil_iff]
        intro x hx
        have hlow := hinv.1 x (List.mem_cons_of_mem _ hx)
        have hxne : x.1 ≠ "content-type" :=
          fun he => hnotin (he ▸ List.mem_map_of_mem (·.1) hx)
        simp only [decide_eq_true_eq]
        intro hc
        have hl := lower_eq_of_canonical_eq hc
        rw [hlow] at hl
        have hdata : x.1.data = "content-type".data := by rw [hl]; decide
        exact hxne (String.ext hdata)
      rw [List.filter_cons, hfilt]
      have hkv : kv = ("content-type", vs) := by
        rcases kv with ⟨k1, v1⟩
        simp only at hk hvs
        rw [hk, hvs]
      simp only [hkv]
      have hct : canonicalMIME "content-type" = canonicalMIME "Content-Type" := by decide
      simp [hct]
    · have hlow := hinv.1 kv (List.mem_cons_self ..)
      have hpredf : ¬ (canonicalMIME kv.1 = canonicalMIME "Content-Type") := by
        intro hc
        have hl := lower_eq_of_canonical_eq hc
        rw [hlow] at hl
        have hdata : kv.1.data = "content-type".data := by rw [hl]; decide
        exact hk (String.ext hdata)
      rw [List.filter_cons]
      simp only [hpredf, decide_eq_false, if_false]
      apply ih hinvt
      unfold assocGet at hget ⊢
      simp only [List.find?, decide_eq_false hk] at hget
      exact hget

/-- Reading `Content-Type` from the applied header gives exactly the
merge map's `content-type` values. -/
theorem getHV_merged_CT {m : List (String × List String)} {vs : List String}
    (hinv : mergeInv m) (hget : assocGet m "content-type" = some vs) :
    getHV (applyHeaderMap m) "Content-Type" = vs := by
  rw [getHV_applyHeaderMap, filter_canonical_single hinv hget]
  simp

/-- The lowered-key map fold of the merge preserves the invariant. -/
theorem mergeInv_lowerSetFold :
    ∀ (entries : List (String × String)) (m : List (String × List String)),
      mergeInv m → mergeInv (lowerSetFold entries m) := by
  intro entries
  induction entries with
  | nil => intro m hm; exact hm
  | cons kv t ih =>
    intro m hm
    unfold lowerSetFold at ih ⊢
    simp only [List.foldl_cons]
    apply ih
    exact mergeInv_assocSet hm _ _ (goToLower_idem kv.1.data)

/-- The header-block fold of the merge preserves the invariant. -/
theorem mergeInv_blockFold :
    ∀ (blocks : List (Option String × Option String))
      (m : List (String × List String)), mergeInv m →
      mergeInv (blockFold blocks m) := by
  intro blocks
  induction blocks with
  | nil => intro m hm; exact hm
  | cons b t ih =>
    intro m hm
    unfold blockFold at ih ⊢
    simp only [List.foldl_cons]
    apply ih
    rcases b with ⟨name?, value?⟩
    rcases name? with _ | name
    · exact hm
    · rcases value? with _ | value
      · exact hm
      · simp only
        rcases assocGet m ⟨goToLower name.data⟩ with _ | existing
        · exact mergeInv_assocSet hm _ _ (goToLower_idem name.data)
        · exact mergeInv_assocSet hm _ _ (goToLower_idem name.data)

/-- The merged header map always satisfies the invariant. -/
theorem mergeInv_mergeHeaders (cfg : RequestCfg) (ctSet : Bool) :
    mergeInv (mergeHeaders cfg ctSet) := by
  have h0 : mergeInv ([] : List (String × List String)) := ⟨by simp, by simp⟩
  have h3 := mergeInv_blockFold cfg.headerBlocks _
    (mergeInv_lowerSetFold (cfg.headers.getD []) _
      (mergeInv_lowerSetFold (defaultHeadersOf cfg) [] h0))
  unfold mergeHeaders
  rcases ctSet with _ | _
  · simpa using h3
  · simp only [if_true]
    exact mergeInv_assocSet h3 _ _ (by decide)

/-- Basic-auth application leaves non-Authorization keys untouched. -/
theorem getHV_applyBasicAuth_other (ba : Option ResourceBasicAuth)
    (pdba : Option (String × String)) (h : List (String × List String))
    (K : String) (hne : canonicalMIME "Authorization" ≠ canonicalMIME K) :
    getHV (applyBasicAuth ba pdba h) K = getHV h K := by
  unfold applyBasicAuth
  rcases ba with _ | b
  · rcases pdba with _ | up
    · rfl
    · dsimp only
      split_ifs with hcred
      · exact getHV_headerSet_other h _ _ K hne
      · rfl
  · dsimp only
    split_ifs with hcred
    · exact getHV_headerSet_other h _ _ K hne
    · rfl

/-- Bearer application leaves non-Authorization keys untouched. -/
theorem getHV_applyBearer_other (tok pdtok : Option String)
    (h : List (String × List String)) (K : String)
    (hne : canonicalMIME "Authorization" ≠ canonicalMIME K) :
    getHV (applyBearer tok pdtok h) K = getHV h K := by
  unfold applyBearer
  split_ifs with htok
  · exact getHV_headerSet_other h _ _ K hne
  · rcases pdtok with _ | t
    · rfl
    · exact getHV_headerSet_other h _ _ K hne

/-- Inversion of a successful build: the body comes from the body
step and the headers are the merged map with both auth passes. -/
theorem buildRequest_ok_inv {env : GoLib} {cfg : RequestCfg} {req : GoRequest}
    (h : buildRequest env cfg = .ok req) :
    ∃ ctSet : Bool,
      computeBody env cfg = .ok (req.body, ctSet) ∧
      req.headers =
        applyBearer cfg.bearerToken (pdBearerOf cfg)
          (applyBasicAuth cfg.basicAuth (pdBasicOf cfg)
            (applyHeaderMap (mergeHeaders cfg ctSet))) := by
  unfold buildRequest at h
  rcases hu : env.urlParse cfg.url with _ | u
  · rw [hu] at h; exact absurd h (by simp)
  · rw [hu] at h
    simp only at h
    unfold buildRequestAfterUrl at h
    rcases hcf : bodyConflict cfg with _ | _
    · rw [hcf] at h
      simp only [Bool.false_eq_true, if_false] at h
      rcases hcb : computeBody env cfg with e | p
      · rw [hcb] at h; exact absurd h (by simp)
      · rw [hcb] at h
        simp only [Except.ok.injEq] at h
        refine ⟨p.2, ?_, ?_⟩
        · rw [← h]
        · rw [← h]
    · rw [hcf] at h
      simp only [if_true] at h
      exact absurd h (by simp)

/-- C6, counterexample.  The claim puts request-level Basic above the
provider default Bearer.  In the code the bearer block runs after the
basic block and overwrites the `Authorization` header with `Set`, so a
spec with a request-level Basic credential and a provider default
Bearer token comes out carrying the provider Bearer token. -/
theorem claimC6_provider_bearer_wins :
    buildRequest stubEnv
      ⟨"http://x", "GET", none, [], none, none, none, none,
        some ⟨some "u", some "p"⟩, none, some ⟨none, none, some "tok"⟩⟩
    = .ok ⟨"GET", "http://x", [], [("Authorization", ["Bearer tok"])], none⟩ ∧
    ("Bearer tok" : String) ≠ "Basic " ++ goBase64 ("u" ++ ":" ++ "p") := by
  exact ⟨by rfl, by decide⟩

/-- C6, amended.  The effective precedence is request-level Bearer >
provider Bearer > request-level Basic > provider Basic (Bearer
defaults override a request-level Basic credential), and the winning
credential is the single value of the `Authorization` header. -/
theorem claimC6_amended_precedence (env : GoLib) (cfg : RequestCfg)
    (req : GoRequest) (hreq : buildRequest env cfg = .ok req) :
    (strSet cfg.bearerToken = true →
      getHV req.headers "Authorization" = ["Bearer " ++ cfg.bearerToken.getD ""]) ∧
    (strSet cfg.bearerToken = false → ∀ t, pdBearerOf cfg = some t →
      getHV req.headers "Authorization" = ["Bearer " ++ t]) ∧
    (strSet cfg.bearerToken = false → pdBearerOf cfg = none →
      ∀ b, cfg.basicAuth = some b →
      b.username.getD "" ≠ "" → b.password.getD "" ≠ "" →
      getHV req.headers "Authorization" =
        ["Basic " ++ goBase64 (b.username.getD "" ++ ":" ++ b.password.getD "")]) ∧
    (strSet cfg.bearerToken = false → pdBearerOf cfg = none →
      cfg.basicAuth = none → ∀ up, pdBasicOf cfg = some up →
      up.1 ≠ "" → up.2 ≠ "" →
      getHV req.headers "Authorization" = ["Basic " ++ goBase64 (up.1 ++ ":" ++ up.2)]) := by
  obtain ⟨ctSet, _, hh⟩ := buildRequest_ok_inv hreq
  rw [hh]
  refine ⟨?_, ?_, ?_, ?_⟩
  · intro htok
    unfold applyBearer
    rw [if_pos htok]
    exact getHV_headerSet_same _ _ _ _ rfl
  · intro htok t hpd
    unfold applyBearer
    rw [htok]
    simp only [Bool.false_eq_true, if_false, hpd]
    exact getHV_headerSet_same _ _ _ _ rfl
  · intro htok hpd b hba hu hp
    unfold applyBearer
    rw [htok]
    simp only [Bool.false_eq_true, if_false, hpd]
    unfold applyBasicAuth
    rw [hba]
    simp only [if_pos (And.intro hu hp)]
    exact getHV_headerSet_same _ _ _ _ rfl
  · intro htok hpd hba up hup hu hp
    unfold applyBearer
    rw [htok]
    simp only [Bool.false_eq_true, if_false, hpd]
    unfold applyBasicAuth
    rw [hba, hup]
    simp only [if_pos (And.intro hu hp)]
    exact getHV_headerSet_same _ _ _ _ rfl

/-- Witness for the amended C6: the counterexample configuration,
through the theorem's provider-Bearer conjunct. -/
theorem claimC6_amended_precedence_witness :
    getHV
      (GoRequest.headers
        ⟨"GET", "http://x", [], [("Authorization", ["Bearer tok"])], none⟩)
      "Authorization" = ["Bearer " ++ "tok"] :=
  (claimC6_amended_precedence stubEnv
    ⟨"http://x", "GET", none, [], none, none, none, none,
      some ⟨some "u", some "p"⟩, none, some ⟨none, none, some "tok"⟩⟩
    ⟨"GET", "http://x", [], [("Authorization", ["Bearer tok"])], none⟩
    (by rfl)).2.1 rfl "tok" rfl

/-- The lowered-key map fold stores, for a given key, the value of the
last map entry lowering to it, leaving the key untouched otherwise. -/
theorem assocGet_lowerSetFold (K0 : String) :
    ∀ (entries : List (String × String)) (m : List (String × List String)),
      assocGet (lowerSetFold entries m) K0 =
        match (entries.filter
            (fun kv => (⟨goToLower kv.1.data⟩ : String) = K0)).getLast? with
        | some kv => some [kv.2]
        | none => assocGet m K0 := by
  intro entries
  induction entries with
  | nil => intro m; rfl
  | cons kv t ih =>
    intro m
    unfold lowerSetFold at ih ⊢
    simp only [List.foldl_cons]
    rw [ih, List.filter_cons]
    by_cases hlk : (⟨goToLower kv.1.data⟩ : String) = K0
    · rw [if_pos (decide_eq_true hlk), hlk]
      rcases hft : (t.filter
          (fun kv => (⟨goToLower kv.1.data⟩ : String) = K0)).getLast? with _ | kv2
      · have hnil := List.getLast?_eq_none_iff.mp hft
        rw [hft, hnil]
        exact assocGet_assocSet_same m K0 [kv.2]
      · rcases hcons : t.filter
            (fun kv => (⟨goToLower kv.1.data⟩ : String) = K0) with _ | ⟨f0, ftl⟩
        · rw [hcons] at hft
          exact absurd hft (by simp)
        · rw [hft, hcons, List.getLast?_cons_cons]
          rw [hcons] at hft
          rw [hft]
      
    · rw [if_neg (by simp [hlk])]
      rcases hft : (t.filter
          (fun kv => (⟨goToLower kv.1.data⟩ : String) = K0)).getLast? with _ | kv2
      · rw [hft]
        exact assocGet_assocSet_other m _ K0 [kv.2] hlk
      · rw [hft]

/-- Header blocks naming other keys do not disturb a map key. -/
theorem assocGet_blockFold_other (K0 : String) :
    ∀ (blocks : List (Option String × Option String))
      (m : List (String × List String)),
      (∀ b ∈ blocks, ∀ name, b.1 = some name →
        (⟨goToLower name.data⟩ : String) ≠ K0) →
      assocGet (blockFold blocks m) K0 = assocGet m K0 := by
  intro blocks
  induction blocks with
  | nil => intro m _; rfl
  | cons b t ih =>
    intro m hb
    unfold blockFold at ih ⊢
    simp only [List.foldl_cons]
    have htail : ∀ b2 ∈ t, ∀ name, b2.1 = some name →
        (⟨goToLower name.data⟩ : String) ≠ K0 :=
      fun b2 hmem => hb b2 (List.mem_cons_of_mem _ hmem)
    rw [ih _ htail]
    rcases b with ⟨name?, value?⟩
    rcases name? with _ | name
    · rfl
    · rcases value? with _ | value
      · rfl
      · have hne := hb (some name, some value) (List.mem_cons_self ..) name rfl
        simp only
        rcases assocGet m ⟨goToLower name.data⟩ with _ | existing
        · exact assocGet_assocSet_other m _ K0 [value] hne
        · exact assocGet_assocSet_other m _ K0 (existing ++ [value]) hne

/-! ## C9: the JSON body path and the Content-Type presence check -/

/-- A concrete environment whose JSON codec knows the document "1"
(decoding to the number 1 and encoding it back), enough to drive the
JSON body path of the builder on closed inputs. -/
def jsonStubEnv : GoLib :=
  ⟨fun s => if s = "1" then some (.num 1) else none,
   fun _ => "", fun _ _ => some false, fun _ => "1",
   fun s => some (s, []), fun _ => none⟩

/-- With `body` unset and `body_json` set, the body step validates the
JSON by parse-and-marshal and records whether the exact-case request
header lookup for `Content-Type` came back empty. -/
theorem computeBody_json (env : GoLib) (cfg : RequestCfg)
    (hb : strSet cfg.body = false) (hbj : strSet cfg.bodyJson = true) :
    computeBody env cfg =
      match env.jsonParse (cfg.bodyJson.getD "") with
      | none => .error "invalid JSON in body_json"
      | some j => .ok (some (env.jsonMarshal j),
          goMapGetZero cfg.headers "Content-Type" = "") := by
  unfold computeBody
  rw [hb, hbj]
  simp

/-- C9, counterexample.  Presence of a `Content-Type` header is judged
by an exact-case lookup of the key "Content-Type" in the request
headers map only: a request spelling its header "content-type" counts
as having none, and the merge overwrites its value with
`application/json` instead of preserving it. -/
theorem claimC9_lowercase_ct_clobbered :
    buildRequest jsonStubEnv
      ⟨"http://x", "POST", some [("content-type", "text/plain")], [], none,
        none, some "1", none, none, none, none⟩
    = .ok ⟨"POST", "http://x", [],
        [("Content-Type", ["application/json"])], some "1"⟩ ∧
    ("application/json" : String) ≠ "text/plain" :=
  ⟨by rfl, by decide⟩

/-- C9, amended.  On the JSON body path the body is parse-and-marshal
validated (invalid JSON is an error), and `Content-Type` presence is
decided by the exact-case lookup `config.Headers["Content-Type"]`
alone: when that lookup is empty the built header is
`application/json`; when the only entry of the request headers map
lowering to `content-type` is an exact-case one with a non-empty value
and no header block names `content-type`, that value is preserved. -/
theorem claimC9_amended_exact_case (env : GoLib) (cfg : RequestCfg)
    (hb : strSet cfg.body = false) (hbj : strSet cfg.bodyJson = true) :
    (env.jsonParse (cfg.bodyJson.getD "") = none →
      ∀ u, env.urlParse cfg.url = some u → bodyConflict cfg = false →
      buildRequest env cfg = .error "invalid JSON in body_json") ∧
    (∀ j req, env.jsonParse (cfg.bodyJson.getD "") = some j →
      buildRequest env cfg = .ok req →
      req.body = some (env.jsonMarshal j) ∧
      (goMapGetZero cfg.headers "Content-Type" = "" →
        getHV req.headers "Content-Type" = ["application/json"]) ∧
      (∀ v, goMapGetZero cfg.headers "Content-Type" = v → v ≠ "" →
        (cfg.headers.getD []).filter
            (fun kv => (⟨goToLower kv.1.data⟩ : String) = "content-type")
          = [("Content-Type", v)] →
        (∀ b ∈ cfg.headerBlocks, ∀ name, b.1 = some name →
          (⟨goToLower name.data⟩ : String) ≠ "content-type") →
        getHV req.headers "Content-Type" = [v])) := by
  constructor
  · intro hpn u hu hnc
    unfold buildRequest
    rw [hu]
    simp only
    unfold buildRequestAfterUrl
    rw [hnc]
    simp only [Bool.false_eq_true, if_false]
    rw [computeBody_json env cfg hb hbj, hpn]
  · intro j req hpj hreq
    obtain ⟨ctSet, hcb, hh⟩ := buildRequest_ok_inv hreq
    rw [computeBody_json env cfg hb hbj, hpj] at hcb
    simp only [Except.ok.injEq, Prod.mk.injEq] at hcb
    obtain ⟨hbody, hct⟩ := hcb
    refine ⟨hbody.symm, ?_, ?_⟩
    · intro hz
      have hcts : ctSet = true := by
        rw [← hct, hz]
        decide
      rw [hh, getHV_applyBearer_other _ _ _ _ (by decide),
        getHV_applyBasicAuth_other _ _ _ _ (by decide)]
      apply getHV_merged_CT (mergeInv_mergeHeaders cfg ctSet)
      rw [hcts]
      unfold mergeHeaders
      rw [if_pos rfl]
      exact assocGet_assocSet_same _ _ _
    · intro v hv hvne hflt hblocks
      have hcts : ctSet = false := by
        rw [← hct, hv]
        exact decide_eq_false hvne
      rw [hh, getHV_applyBearer_other _ _ _ _ (by decide),
        getHV_applyBasicAuth_other _ _ _ _ (by decide)]
      apply getHV_merged_CT (mergeInv_mergeHeaders cfg ctSet)
      rw [hcts]
      unfold mergeHeaders
      simp only [Bool.false_eq_true, if_false]
      rw [assocGet_blockFold_other "content-type" cfg.headerBlocks _ hblocks,
        assocGet_lowerSetFold "content-type" (cfg.headers.getD []) _, hflt]
      rfl

/-- Witness for the amended C9: a request with an exact-case
`Content-Type: text/plain` header and `body_json = "1"` keeps its
header value and carries the re-marshalled body. -/
theorem claimC9_amended_exact_case_witness :
    GoRequest.body
        ⟨"POST", "http://x", [], [("Content-Type", ["text/plain"])], some "1"⟩
      = some (jsonStubEnv.jsonMarshal (.num 1)) ∧
    getHV
        (GoRequest.headers
          ⟨"POST", "http://x", [], [("Content-Type", ["text/plain"])], some "1"⟩)
        "Content-Type" = ["text/plain"] := by
  have h := (claimC9_amended_exact_case jsonStubEnv
      ⟨"http://x", "POST", some [("Content-Type", "text/plain")], [], none,
        none, some "1", none, none, none, none⟩
      (by rfl) (by decide)).2 (.num 1)
      ⟨"POST", "http://x", [], [("Content-Type", ["text/plain"])], some "1"⟩
      (by rfl) (by rfl)
  exact ⟨h.1, h.2.2 "text/plain" rfl (by decide) (by decide) (by simp)⟩

/-! ## C8: delay computation (`CalculateDelay`, `parseRetryAfter`) -/

/-- Two's-complement wrap of Go `int64` arithmetic. -/
def wrap64 (z : Int) : Int :=
  (z + 9223372036854775808) % 18446744073709551616 - 9223372036854775808

/-- Truncation toward zero, as Go's float-to-int conversion rounds. -/
def truncQ (q : ℚ) : Int := if 0 ≤ q then q.floor else q.ceil

/-- `int64(math.Pow(2, float64 e))`: powers of two are exact in
float64, and the conversion is exact while `2^e` fits `int64`
(`e ≤ 62`); an out-of-range conversion is implementation-dependent in
Go (amd64 yields `-2^63`), and every statement below stays inside the
exact range.  A negative exponent gives a fraction below one, which
truncates to zero. -/
def pow2i64 (e : Int) : Int :=
  if e < 0 then 0
  else if e ≤ 62 then ((2 ^ e.toNat : Nat) : Int)
  else -9223372036854775808

/-- `unicode.IsSpace` on the Latin-1 range, the alphabet of a
`Retry-After` value. -/
def isGoSpace (c : Char) : Bool :=
  c = ' ' ∨ c = '\t' ∨ c = '\n' ∨ c = Char.ofNat 11 ∨ c = Char.ofNat 12 ∨
    c = '\r' ∨ c = Char.ofNat 133 ∨ c = Char.ofNat 160

/-- `strings.TrimSpace`. -/
def goTrimSpace (s : String) : String :=
  ⟨((s.data.dropWhile isGoSpace).reverse.dropWhile isGoSpace).reverse⟩

/-- The value of a non-empty all-digit run, else `none`. -/
def digitsVal (l : List Char) : Option Nat :=
  if l = [] then none
  else if l.all Char.isDigit then
    some (l.foldl (fun a c => a * 10 + (c.toNat - 48)) 0)
  else none

/-- `strconv.ParseInt(s, 10, 64)`: optional sign, a non-empty digit
run, and a range check against `int64` (out of range is an error). -/
def goParseInt64 (s : String) : Option Int :=
  match s.data with
  | [] => none
  | c :: rest =>
    let signDigits : Bool × List Char :=
      if c = '-' then (true, rest)
      else if c = '+' then (false, rest)
      else (false, c :: rest)
    match digitsVal signDigits.2 with
    | none => none
    | some n =>
      if signDigits.1 then
        if n ≤ 9223372036854775808 then some (-(n : Int)) else none
      else
        if n ≤ 9223372036854775807 then some (n : Int) else none

/-- `parseRetryAfter` (retry.go, lines 87-119), returning the duration
in nanoseconds.  HTTP-date parsing and the clock are environment
parameters: `dateParse` gives the parsed instant in nanoseconds under
any of the six layouts, and `now` is `time.Now()`.  A past or equal
date, an unparsable value, and an out-of-range integer are all
errors (`none`). -/
def parseRetryAfter (dateParse : String → Option Int) (now : Int)
    (s : String) : Option Int :=
  let t := goTrimSpace s
  match goParseInt64 t with
  | some secs => some (wrap64 (secs * 1000000000))
  | none =>
    match dateParse t with
    | some tAbs => if now < tAbs then some (tAbs - now) else none
    | none => none

/-- The `delayMs` computation of `CalculateDelay` (retry.go, lines
56-74): backoff base in wrapping `int64` arithmetic, then the
max-delay cap. -/
def calcDelayMs (rc : RetryConfig) (attempt : Int) : Int :=
  let base : Int :=
    if rc.backoff = "exponential" then
      wrap64 (rc.minDelayMs * pow2i64 (attempt - 1))
    else if rc.backoff = "linear" then
      wrap64 (rc.minDelayMs * attempt)
    else rc.minDelayMs
  if rc.maxDelayMs < base then rc.maxDelayMs else base

/-- `RetryConfig.CalculateDelay` (retry.go, lines 46-85), returning
the `time.Duration` in nanoseconds.  `jit` is the `rand.Float64()`
draw in `[0,1)`; float products are modelled as exact rationals. -/
def calculateDelay (rc : RetryConfig) (dateParse : String → Option Int)
    (now : Int) (jit : ℚ) (attempt : Int) (retryAfter : String) : Int :=
  match
    (if rc.respectRetryAfter ∧ retryAfter ≠ "" then
      parseRetryAfter dateParse now retryAfter
    else none) with
  | some d => d
  | none =>
    let delayMs := calcDelayMs rc attempt
    let delay := wrap64 (delayMs * 1000000)
    if rc.jitter then
      wrap64 (delay + wrap64 (truncQ ((delayMs : ℚ) * (1 / 4) * jit) * 1000000))
    else delay

/-- C8.  The exponential base is computed in wrapping `int64`
arithmetic: at attempt 55 of the default polling policy (exponential,
min 1000 ms, max 5000 ms, 60 attempts) the product `1000 * 2^54`
wraps to a negative number, which passes the `delayMs > MaxDelayMs`
cap untouched, and the returned duration is `-2^63` ns instead of the
capped 5000 ms the algorithm specifies (attempt 54 still caps). -/
theorem claimC8_exponential_overflow_escapes_cap :
    calcDelayMs defaultPollRetryConfig 54 = 5000 ∧
    calcDelayMs defaultPollRetryConfig 55 = -432345564227567616 ∧
    calculateDelay defaultPollRetryConfig (fun _ => none) 0 0 55 "" =
      -9223372036854775808 ∧
    (5000 : Int) < 1000 * 2 ^ 54 := by
  refine ⟨by decide, by decide, ?_, by decide⟩
  unfold calculateDelay
  rw [if_neg (by simp)]
  simp only [mul_zero]
  decide

/-! ## C10: `generateResourceID` (SHA-256 of "url|method|body") -/

/-- Reduction to a 32-bit word. -/
def m32 (n : Nat) : Nat := n % 4294967296

/-- Right rotation of a 32-bit word. -/
def rotr32 (x n : Nat) : Nat := m32 ((x >>> n) ||| (x <<< (32 - n)))

/-- `Ch(x,y,z)` (FIPS 180-4), with 32-bit complement as xor with ones. -/
def ch32 (x y z : Nat) : Nat := (x &&& y) ^^^ ((x ^^^ 4294967295) &&& z)

/-- `Maj(x,y,z)`. -/
def maj32 (x y z : Nat) : Nat := (x &&& y) ^^^ (x &&& z) ^^^ (y &&& z)

/-- `Σ0`. -/
def bsig0 (x : Nat) : Nat := rotr32 x 2 ^^^ rotr32 x 13 ^^^ rotr32 x 22

/-- `Σ1`. -/
def bsig1 (x : Nat) : Nat := rotr32 x 6 ^^^ rotr32 x 11 ^^^ rotr32 x 25

/-- `σ0`. -/
def ssig0 (x : Nat) : Nat := rotr32 x 7 ^^^ rotr32 x 18 ^^^ (x >>> 3)

/-- `σ1`. -/
def ssig1 (x : Nat) : Nat := rotr32 x 17 ^^^ rotr32 x 19 ^^^ (x >>> 10)

/-- The 64 round constants of FIPS 180-4 (decimal). -/
def kConst : List Nat :=
  [1116352408, 1899447441, 3049323471, 3921009573,
   961987163, 1508970993, 2453635748, 2870763221,
   3624381080, 310598401, 607225278, 1426881987,
   1925078388, 2162078206, 2614888103, 3248222580,
   3835390401, 4022224774, 264347078, 604807628,
   770255983, 1249150122, 1555081692, 1996064986,
   2554220882, 2821834349, 2952996808, 3210313671,
   3336571891, 3584528711, 113926993, 338241895,
   666307205, 773529912, 1294757372, 1396182291,
   1695183700, 1986661051, 2177026350, 2456956037,
   2730485921, 2820302411, 3259730800, 3345764771,
   3516065817, 3600352804, 4094571909, 275423344,
   430227734, 506948616, 659060556, 883997877,
   958139571, 1322822218, 1537002063, 1747873779,
   1955562222, 2024104815, 2227730452, 2361852424,
   2428436474, 2756734187, 3204031479, 3329325298]

/-- The eight-word SHA-256 state. -/
structure Hash8 where
  a : Nat
  b : Nat
  c : Nat
  d : Nat
  e : Nat
  f : Nat
  g : Nat
  h : Nat
deriving DecidableEq, Repr

/-- The initial hash value (decimal). -/
def sha256Init : Hash8 :=
  ⟨1779033703, 3144134277, 1013904242, 2773480762,
   1359893119, 2600822924, 528734635, 1541459225⟩

/-- The first sixteen schedule words, big-endian from the block bytes
(`fuel` is the word count, 16 for a 64-byte block). -/
def words16 : Nat → List Nat → List Nat
  | 0, _ => []
  | fuel + 1, b0 :: b1 :: b2 :: b3 :: rest =>
    ((b0 <<< 24) ||| (b1 <<< 16) ||| (b2 <<< 8) ||| b3) :: words16 fuel rest
  | _ + 1, _ => []

/-- Message-schedule extension: `fuel` further words, each from
positions `t-2, t-7, t-15, t-16`. -/
def extendW : Nat → List Nat → List Nat
  | 0, ws => ws
  | fuel + 1, ws =>
    extendW fuel (ws ++ [m32 (ssig1 (ws.getD (ws.length - 2) 0) +
      ws.getD (ws.length - 7) 0 + ssig0 (ws.getD (ws.length - 15) 0) +
      ws.getD (ws.length - 16) 0)])

/-- One compression round on the working variables. -/
def round8 (st : Hash8) (kw : Nat × Nat) : Hash8 :=
  let t1 := m32 (st.h + bsig1 st.e + ch32 st.e st.f st.g + kw.1 + kw.2)
  let t2 := m32 (bsig0 st.a + maj32 st.a st.b st.c)
  ⟨m32 (t1 + t2), st.a, st.b, st.c, m32 (st.d + t1), st.e, st.f, st.g⟩

/-- Compression of one 64-byte block into the state. -/
def shaCompress (st : Hash8) (block : List Nat) : Hash8 :=
  let w := extendW 48 (words16 16 block)
  let r := (kConst.zip w).foldl round8 st
  ⟨m32 (st.a + r.a), m32 (st.b + r.b), m32 (st.c + r.c), m32 (st.d + r.d),
   m32 (st.e + r.e), m32 (st.f + r.f), m32 (st.g + r.g), m32 (st.h + r.h)⟩

/-- Big-endian 8-byte serialisation of the bit length. -/
def be64 (n : Nat) : List Nat :=
  [(n >>> 56) % 256, (n >>> 48) % 256, (n >>> 40) % 256, (n >>> 32) % 256,
   (n >>> 24) % 256, (n >>> 16) % 256, (n >>> 8) % 256, n % 256]

/-- SHA-256 padding: `0x80`, zeros to 56 mod 64, the 64-bit length. -/
def shaPad (msg : List Nat) : List Nat :=
  msg ++ 128 :: List.replicate ((56 + 64 - (msg.length + 1) % 64) % 64) 0 ++
    be64 (msg.length * 8)

/-- Split into 64-byte blocks (`fuel` bounds the block count). -/
def chunks64 : Nat → List Nat → List (List Nat)
  | 0, _ => []
  | _, [] => []
  | fuel + 1, l => l.take 64 :: chunks64 fuel (l.drop 64)

/-- Big-endian 4-byte serialisation of a state word. -/
def be32 (n : Nat) : List Nat :=
  [(n >>> 24) % 256, (n >>> 16) % 256, (n >>> 8) % 256, n % 256]

/-- The 32-byte digest of a final state. -/
def sha256Out (st : Hash8) : List Nat :=
  be32 st.a ++ be32 st.b ++ be32 st.c ++ be32 st.d ++
    be32 st.e ++ be32 st.f ++ be32 st.g ++ be32 st.h

/-- `sha256.Sum256` over a byte list. -/
def sha256 (msg : List Nat) : List Nat :=
  sha256Out
    ((chunks64 (shaPad msg).length (shaPad msg)).foldl shaCompress sha256Init)

/-- One lowercase hexadecimal digit, as `encoding/hex` writes them. -/
def hexDigitChar (n : Nat) : Char :=
  if n < 10 then Char.ofNat (48 + n) else Char.ofNat (87 + n)

/-- `hex.EncodeToString`: two lowercase digits per byte. -/
def hexEncode : List Nat → List Char
  | [] => []
  | b :: t => hexDigitChar (b / 16) :: hexDigitChar (b % 16) :: hexEncode t

/-- A lowercase hexadecimal character (`0-9` or `a-f`). -/
def isHexLower (c : Char) : Bool :=
  (48 ≤ c.toNat && c.toNat ≤ 57) || (97 ≤ c.toNat && c.toNat ≤ 102)

/-- The fields of `HttpxRequestResourceModel` (models.go) that the ID
and the claim read or contrast; Terraform nulls are `none` and
`ValueString()` of a null is the empty string. -/
structure HttpxRequestResourceModel where
  url : Option String
  method : Option String
  headers : Option (List (String × String))
  query : Option (List (String × String))
  body : Option String
  bodyJson : Option String
  bodyFile : Option String
deriving DecidableEq, Repr

/-- `generateResourceID` (part_005, lines 807-816): the first 16 hex
characters of the SHA-256 of "url|method|body". -/
def generateResourceID (model : HttpxRequestResourceModel) : String :=
  ⟨(hexEncode (sha256 (utf8Bytes
    (model.url.getD "" ++ "|" ++ model.method.getD "" ++ "|" ++
      model.body.getD "")))).take 16⟩

/-- Every serialised state byte is a byte. -/
theorem be32_mem_lt (x : Nat) : ∀ b ∈ be32 x, b < 256 := by
  intro b hb
  simp [be32] at hb
  rcases hb with rfl | rfl | rfl | rfl <;> exact Nat.mod_lt _ (by norm_num)

/-- A digest has exactly 32 bytes. -/
theorem sha256Out_length (st : Hash8) : (sha256Out st).length = 32 := by
  simp [sha256Out, be32]

/-- Digest entries are bytes. -/
theorem sha256Out_mem_lt (st : Hash8) : ∀ b ∈ sha256Out st, b < 256 := by
  intro b hb
  simp only [sha256Out, List.mem_append] at hb
  rcases hb with ((((((h | h) | h) | h) | h) | h) | h) | h <;>
    exact be32_mem_lt _ b h

/-- A SHA-256 digest has exactly 32 bytes. -/
theorem sha256_length (msg : List Nat) : (sha256 msg).length = 32 :=
  sha256Out_length _

/-- SHA-256 digest entries are bytes. -/
theorem sha256_mem_lt (msg : List Nat) : ∀ b ∈ sha256 msg, b < 256 :=
  sha256Out_mem_lt _

/-- Hex encoding doubles the length. -/
theorem hexEncode_length : ∀ bs : List Nat, (hexEncode bs).length = 2 * bs.length := by
  intro bs
  induction bs with
  | nil => rfl
  | cons b t ih => simp [hexEncode, ih]; omega

/-- The sixteen digit characters are lowercase hex. -/
theorem hexDigitChar_isHexLower : ∀ n < 16, isHexLower (hexDigitChar n) = true := by
  decide

/-- Hex encoding of bytes only emits lowercase hex characters. -/
theorem hexEncode_mem {bs : List Nat} (hb : ∀ b ∈ bs, b < 256) :
    ∀ c ∈ hexEncode bs, isHexLower c = true := by
  induction bs with
  | nil => intro c hc; simp [hexEncode] at hc
  | cons b t ih =>
    intro c hc
    have hb0 : b < 256 := hb b (by simp)
    simp only [hexEncode, List.mem_cons] at hc
    rcases hc with rfl | rfl | hc
    · exact hexDigitChar_isHexLower (b / 16) (by omega)
    · exact hexDigitChar_isHexLower (b % 16) (by omega)
    · exact ih (fun x hx => hb x (List.mem_cons_of_mem _ hx)) c hc

/-- C10.  The resource ID is the first 16 lowercase-hex characters of
the SHA-256 digest of "url|method|body", read from the url, method and
raw body fields only: two models agreeing on those three fields get
the same ID whatever their other fields; the ID is 16 characters of
lowercase hex; and the digest function matches SHA-256 on the empty
input (FIPS 180-4 test vector). -/
theorem claimC10_id_from_url_method_body
    (m1 m2 : HttpxRequestResourceModel)
    (hu : m1.url = m2.url) (hm : m1.method = m2.method)
    (hb : m1.body = m2.body) :
    generateResourceID m1 = generateResourceID m2 ∧
    generateResourceID m1 = ⟨(hexEncode (sha256 (utf8Bytes
      (m1.url.getD "" ++ "|" ++ m1.method.getD "" ++ "|" ++
        m1.body.getD "")))).take 16⟩ ∧
    (generateResourceID m1).data.length = 16 ∧
    (∀ c ∈ (generateResourceID m1).data, isHexLower c = true) ∧
    sha256 (utf8Bytes "") =
      [227, 176, 196, 66, 152, 252, 28, 20, 154, 251, 244, 200, 153, 111,
       185, 36, 39, 174, 65, 228, 100, 155, 147, 76, 164, 149, 153, 27,
       120, 82, 184, 85] := by
  refine ⟨?_, rfl, ?_, ?_, ?_⟩
  · unfold generateResourceID
    rw [hu, hm, hb]
  · show ((hexEncode (sha256 _)).take 16).length = 16
    rw [List.length_take, hexEncode_length, sha256_length]
    decide
  · intro c hc
    have hc2 : c ∈ hexEncode (sha256 (utf8Bytes
        (m1.url.getD "" ++ "|" ++ m1.method.getD "" ++ "|" ++
          m1.body.getD ""))) := List.take_subset 16 _ hc
    exact hexEncode_mem (sha256_mem_lt _) c hc2
  · decide

/-- Witness for C10: two models sharing url, method and raw body but
differing in `body_json`, `headers` and `query` get the same ID. -/
theorem claimC10_id_from_url_method_body_witness :
    generateResourceID
        ⟨some "http://x", some "GET", none, none, some "b", some "1", none⟩
      = generateResourceID
        ⟨some "http://x", some "GET", some [("X-A", "1")], some [("q", "2")],
          some "b", none, some "f.json"⟩ ∧
    (generateResourceID
        ⟨some "http://x", some "GET", none, none, some "b", some "1", none⟩).data.length
      = 16 :=
  have h := claimC10_id_from_url_method_body
    ⟨some "http://x", some "GET", none, none, some "b", some "1", none⟩
    ⟨some "http://x", some "GET", some [("X-A", "1")], some [("q", "2")],
      some "b", none, some "f.json"⟩ rfl rfl rfl
  ⟨h.1, h.2.2.1⟩
